import Mathlib

/-!
# exchange-rates: a verification development

A shallow embedding of `exchange-rates.go` and proofs about it.

Go strings and byte slices are modelled as lists of bytes (`List Nat`), since the
library routines the program calls (`time.Parse`, `strings.TrimSpace`,
`url.QueryEscape`, `json.Unmarshal`, `bufio.Reader.ReadLine`) work on bytes.  The
routines of the standard library are not part of the repository; each one is
modelled after its documented behaviour and carries the name it has in Go.

* A `time.Time` is held by its civil fields in UTC.
* `json.Unmarshal` is modelled in two steps, as the library works: the text is
  read into a JSON value, and the value fills the structs of the program.
* Standard input is a finite sequence of bytes with the end of the file after it;
  an error of a read other than the end of the file is not modelled.
* The HTTP client with the service behind it is a function from requests to
  responses or errors.
* A panic ends the process; what the Go runtime then reports is not modelled.
-/

namespace ExchangeRates

deriving instance DecidableEq for Except

/-! ## Strings -/

/-- A Go string: an immutable sequence of bytes. -/
abbrev GoString := List Nat

/-- The bytes of an ASCII string literal of the source. -/
def str (s : String) : GoString := s.toList.map Char.toNat

/-! ## package time -/

/-- A `time.Time` in UTC without monotonic clock reading, held by its civil
fields.  Every `Time` of the program is the zero value or a result of
`time.Parse` with a layout that has no zone, so all of them are UTC; on such
values Go's `==` on the struct agrees with equality of the civil fields. -/
structure Time where
  year : Nat
  month : Nat
  day : Nat
  hour : Nat
  min : Nat
  sec : Nat
  nsec : Nat
deriving DecidableEq, Repr

/-- The zero `time.Time`: January 1, year 1, 00:00:00 UTC. -/
def Time.zero : Time := ⟨1, 1, 1, 0, 0, 0, 0⟩

/-- The errors of the program. -/
inductive Error where
  /-- The sentinel `io.EOF`. -/
  | EOF
  /-- A `*time.ParseError` for the given layout and value. -/
  | ParseError (layout value : GoString)
  /-- An error made by `fmt.Errorf` with the given message. -/
  | errorString (msg : GoString)
  /-- An error of the HTTP transport (`client.Do`) or of reading a body. -/
  | transport (msg : GoString)
  /-- A `*json.SyntaxError`: the text is not JSON. -/
  | SyntaxError
  /-- A `*json.UnmarshalTypeError`: a JSON value does not fit the Go type. -/
  | UnmarshalTypeError
deriving DecidableEq, Repr

/-- Go `isLeap`. -/
def isLeap (year : Nat) : Bool :=
  year % 4 == 0 && (year % 100 != 0 || year % 400 == 0)

/-- Go `daysBefore`: days before the start of month m+1 in a non-leap year. -/
def daysBefore : List Nat :=
  [0, 31, 59, 90, 120, 151, 181, 212, 243, 273, 304, 334, 365]

/-- Go `daysIn`. -/
def daysIn (m : Nat) (year : Nat) : Nat :=
  if m = 2 ∧ isLeap year = true then 29
  else daysBefore.getD m 0 - daysBefore.getD (m - 1) 0

/-- Go `isDigit`: whether `s[i]` is in range and is a decimal digit. -/
def isDigit (s : GoString) (i : Nat) : Bool :=
  match s.get? i with
  | some c => decide (48 ≤ c) && decide (c ≤ 57)
  | none => false

/-- Go `getnum`: a one- or two-digit number; with `fixed`, exactly two digits. -/
def getnum (s : GoString) (fixed : Bool) : Option (Nat × GoString) :=
  if !isDigit s 0 then none
  else if !isDigit s 1 then
    if fixed then none else some (s.getD 0 0 - 48, s.drop 1)
  else some ((s.getD 0 0 - 48) * 10 + (s.getD 1 0 - 48), s.drop 2)

/-- Go `leadingInt`: the leading decimal digits of s as a number, and the rest. -/
def leadingInt : GoString → Nat → Nat × GoString
  | [], x => (x, [])
  | c :: rest, x =>
    if 48 ≤ c ∧ c ≤ 57 then leadingInt rest (x * 10 + (c - 48)) else (x, c :: rest)

/-- Go `atoi` of package time: an optionally signed decimal number, nothing after. -/
def atoi (s : GoString) : Option Int :=
  let neg := s.head? = some 45
  let s1 := if s.head? = some 45 ∨ s.head? = some 43 then s.drop 1 else s
  match leadingInt s1 0 with
  | (q, []) => some (if neg then -(q : Int) else (q : Int))
  | (_, _ :: _) => none

/-- Go `skip`: removes the literal text of the layout from the front of the value.
The layouts of this program have no blank in their literal text, so the branch of
`skip` for blanks is never taken and is left out. -/
def skip : GoString → GoString → Option GoString
  | value, [] => some value
  | [], _ :: _ => none
  | v :: value, p :: pre => if v = p then skip value pre else none

/-- The layout elements (`std` codes) the program's layouts contain; `none` is
the code 0 that `nextStdChunk` returns at the end of the layout. -/
inductive Std where
  | stdZeroDay
  | stdZeroMonth
  | stdLongYear
  | none
deriving DecidableEq, Repr

/-- A layout as the sequence of `(prefix, std)` pairs that repeated calls of
`nextStdChunk` return for it. -/
abbrev Layout := List (GoString × Std)

/-- The chunks of the layout `"02/01/2006"`. -/
def layoutDMY : Layout :=
  [([], Std.stdZeroDay), (str "/", Std.stdZeroMonth), (str "/", Std.stdLongYear), ([], Std.none)]

/-- The chunks of the layout `"2006-01-02"`. -/
def layoutYMD : Layout :=
  [([], Std.stdLongYear), (str "-", Std.stdZeroMonth), (str "-", Std.stdZeroDay), ([], Std.none)]

/-- The fields `time.Parse` collects: year, month and day; month and day start at -1. -/
structure Fields where
  year : Int
  month : Int
  day : Int
deriving DecidableEq, Repr

/-- The loop of Go `time.parse` over the chunks of the layout.  Returns the
collected fields, or `none` for any `ParseError`. -/
def parseLoop : Layout → GoString → Fields → Option Fields
  | [], _, f => some f
  | (pre, std) :: layout, value, f =>
    match skip value pre with
    | Option.none => Option.none
    | some value =>
      match std with
      | Std.none => if value.length ≠ 0 then Option.none else some f
      | Std.stdLongYear =>
        if value.length < 4 ∨ !isDigit value 0 then Option.none
        else
          match atoi (value.take 4) with
          | Option.none => Option.none
          | some y => parseLoop layout (value.drop 4) { f with year := y }
      | Std.stdZeroMonth =>
        match getnum value true with
        | Option.none => Option.none
        | some (m, value) =>
          if (m : Int) ≤ 0 ∨ 12 < (m : Int) then Option.none
          else parseLoop layout value { f with month := m }
      | Std.stdZeroDay =>
        match getnum value true with
        | Option.none => Option.none
        | some (d, value) => parseLoop layout value { f with day := d }

/-- Go `time.Parse` for a layout with date elements only: the loop, the defaults
for an absent month or day, the validation of the day of the month, and
`Date(year, month, day, 0, 0, 0, 0, UTC)`.  The fields handed to `Date` are in
range, so `Date` does not normalise them. -/
def timeParse (name : GoString) (layout : Layout) (value : GoString) : Except Error Time :=
  match parseLoop layout value ⟨0, -1, -1⟩ with
  | Option.none => Except.error (Error.ParseError name value)
  | some f =>
    let month := if f.month < 0 then 1 else f.month
    let day := if f.day < 0 then 1 else f.day
    if day < 1 ∨ day > (daysIn month.toNat f.year.toNat : Int) then
      Except.error (Error.ParseError name value)
    else
      Except.ok ⟨f.year.toNat, month.toNat, day.toNat, 0, 0, 0, 0⟩

/-- Go `appendInt`: the decimal digits of x, padded with zeros on the left to the
given width; `digits fuel x acc` writes the digits of x before acc. -/
def digits : Nat → Nat → GoString → GoString
  | 0, _, acc => acc
  | fuel + 1, x, acc =>
    if x < 10 then (48 + x) :: acc else digits fuel (x / 10) ((48 + x % 10) :: acc)

/-- Go `appendInt` for a value that is not negative. -/
def appendInt (x : Nat) (width : Nat) : GoString :=
  if width = 2 ∧ x < 100 then [48 + x / 10, 48 + x % 10]
  else if width = 4 ∧ x < 10000 then
    [48 + x / 1000, 48 + x / 100 % 10, 48 + x / 10 % 10, 48 + x % 10]
  else
    let d := digits (x + 1) x []
    List.replicate (width - d.length) 48 ++ d

/-- Go `Time.Format("2006-01-02")`. -/
def Time.Format (t : Time) : GoString :=
  appendInt t.year 4 ++ str "-" ++ appendInt t.month 2 ++ str "-" ++ appendInt t.day 2

/-- Go `formatNano` as the layout element `.999999999` uses it: a point and the
nine digits of the nanoseconds without their trailing zeros, nothing when zero. -/
def formatNano (nsec : Nat) : GoString :=
  let nine := List.replicate (9 - (digits (nsec + 1) nsec []).length) 48 ++ digits (nsec + 1) nsec []
  let trimmed := (nine.reverse.dropWhile (fun c => c == 48)).reverse
  if trimmed = [] then [] else 46 :: trimmed

/-- Go `Time.String` of a UTC time without monotonic clock reading: the format
`"2006-01-02 15:04:05.999999999 -0700 MST"`. -/
def Time.String (t : Time) : GoString :=
  t.Format ++ str " " ++ appendInt t.hour 2 ++ str ":" ++ appendInt t.min 2 ++ str ":" ++
    appendInt t.sec 2 ++ formatNano t.nsec ++ str " +0000 UTC"

/-! ## packages unicode/utf8, unicode and strings -/

/-- Go `utf8.RuneError`. -/
def RuneError : Nat := 0xFFFD

/-- The part of Go `utf8.DecodeRune` for a first byte s0 that starts a sequence
of sz bytes, from 2 to 4, whose second byte must be from lo to hi; t is the text
after s0. -/
def decodeTail (s0 sz lo hi : Nat) (t : GoString) : Nat × Nat :=
  match t with
  | [] => (RuneError, 1)
  | s1 :: t1 =>
    if t.length + 1 < sz then (RuneError, 1)
    else if s1 < lo ∨ hi < s1 then (RuneError, 1)
    else if sz ≤ 2 then (s0 % 32 * 64 + s1 % 64, 2)
    else
      match t1 with
      | [] => (RuneError, 1)
      | s2 :: t2 =>
        if s2 < 0x80 ∨ 0xBF < s2 then (RuneError, 1)
        else if sz ≤ 3 then (s0 % 16 * 4096 + s1 % 64 * 64 + s2 % 64, 3)
        else
          match t2 with
          | [] => (RuneError, 1)
          | s3 :: _ =>
            if s3 < 0x80 ∨ 0xBF < s3 then (RuneError, 1)
            else (s0 % 8 * 262144 + s1 % 64 * 4096 + s2 % 64 * 64 + s3 % 64, 4)

/-- Go `utf8.DecodeRune`: the first rune of s and its width in bytes; an
ill-formed encoding gives `(RuneError, 1)`, the empty string `(RuneError, 0)`. -/
def DecodeRune (s : GoString) : Nat × Nat :=
  match s with
  | [] => (RuneError, 0)
  | s0 :: t =>
    if s0 < 0x80 then (s0, 1)
    else if s0 < 0xC2 ∨ 0xF4 < s0 then (RuneError, 1)
    else
      decodeTail s0 (if s0 < 0xE0 then 2 else if s0 < 0xF0 then 3 else 4)
        (if s0 = 0xE0 then 0xA0 else if s0 = 0xF0 then 0x90 else 0x80)
        (if s0 = 0xED then 0x9F else if s0 = 0xF4 then 0x8F else 0xBF) t

/-- Go `utf8.RuneStart`: whether the byte is not a continuation byte. -/
def RuneStart (b : Nat) : Bool := b / 64 != 2

/-- The loop of Go `utf8.DecodeLastRune` that moves back from `start` to a byte
that starts a rune, going no further than `lim`; it returns the final `start`,
which is `lim - 1` when no such byte is found (as an integer, it may be -1). -/
def lastRuneStart (s : GoString) (lim : Nat) : Nat → Int
  | 0 => if lim = 0 ∧ RuneStart (s.getD 0 0) then 0 else (lim : Int) - 1
  | start + 1 =>
    if start + 1 < lim then (lim : Int) - 1
    else if RuneStart (s.getD (start + 1) 0) then ((start + 1 : Nat) : Int)
    else lastRuneStart s lim start

/-- Go `utf8.DecodeLastRune`: the last rune of s and its width in bytes. -/
def DecodeLastRune (s : GoString) : Nat × Nat :=
  let e := s.length
  if e = 0 then (RuneError, 0)
  else
    let r := s.getD (e - 1) 0
    if r < 0x80 then (r, 1)
    else
      let lim := e - 4
      let start : Int := if e - 1 = 0 then -1 else lastRuneStart s lim (e - 2)
      let start := if start < 0 then 0 else start.toNat
      let (r, size) := DecodeRune (s.drop start)
      if start + size ≠ e then (RuneError, 1) else (r, size)

/-- Go `unicode.IsSpace`. -/
def IsSpace (r : Nat) : Bool :=
  if r ≤ 0xFF then
    r == 9 || r == 10 || r == 11 || r == 12 || r == 13 || r == 32 || r == 0x85 || r == 0xA0
  else
    r == 0x1680 || (decide (0x2000 ≤ r) && decide (r ≤ 0x200A)) || r == 0x2028 || r == 0x2029 ||
      r == 0x202F || r == 0x205F || r == 0x3000

/-- The table `asciiSpace` of package strings. -/
def asciiSpace (c : Nat) : Bool :=
  c == 9 || c == 10 || c == 11 || c == 12 || c == 13 || c == 32

/-- Go `strings.TrimLeftFunc(s, unicode.IsSpace)`; the fuel bounds the number of
runes removed. -/
def trimLeftSpace : Nat → GoString → GoString
  | 0, s => s
  | fuel + 1, s =>
    if s = [] then []
    else if IsSpace (DecodeRune s).1 then trimLeftSpace fuel (s.drop (DecodeRune s).2) else s

/-- Go `strings.TrimRightFunc(s, unicode.IsSpace)`; the fuel bounds the number of
runes removed. -/
def trimRightSpace : Nat → GoString → GoString
  | 0, s => s
  | fuel + 1, s =>
    if s = [] then []
    else if IsSpace (DecodeLastRune s).1 then
      trimRightSpace fuel (s.take (s.length - (DecodeLastRune s).2))
    else s

/-- Go `strings.TrimFunc(s, unicode.IsSpace)`. -/
def TrimFunc (s : GoString) : GoString :=
  let l := trimLeftSpace s.length s
  trimRightSpace l.length l

/-- Go `strings.TrimSpace`: white space in ASCII is cut from both ends byte by
byte; at the first byte that is not ASCII the work is handed to `TrimFunc`
(front) or `TrimRightFunc` (back). -/
def TrimSpace (s : GoString) : GoString :=
  let s1 := s.dropWhile asciiSpace
  match s1 with
  | [] => []
  | c :: _ =>
    if c ≥ 0x80 then TrimFunc s1
    else
      let r := s1.reverse.dropWhile asciiSpace
      match r with
      | [] => []
      | d :: _ => if d ≥ 0x80 then trimRightSpace r.length r.reverse else r.reverse

/-! ## package net/url -/

/-- Go `shouldEscape(c, encodeQueryComponent)`: every byte is escaped except the
unreserved ones: letters, digits, `-`, `_`, `.` and `~`. -/
def shouldEscape (c : Nat) : Bool :=
  !((decide (97 ≤ c) && decide (c ≤ 122)) || (decide (65 ≤ c) && decide (c ≤ 90)) ||
    (decide (48 ≤ c) && decide (c ≤ 57)) || c == 45 || c == 95 || c == 46 || c == 126)

/-- The table `upperhex`, `"0123456789ABCDEF"`, at index i. -/
def upperhex (i : Nat) : Nat := if i < 10 then 48 + i else 55 + i

/-- Go `url.QueryEscape`: a blank becomes `+`, any other byte that must be
escaped becomes `%XX`. -/
def QueryEscape : GoString → GoString
  | [] => []
  | c :: s =>
    if c = 32 then 43 :: QueryEscape s
    else if shouldEscape c then 37 :: upperhex (c / 16 % 16) :: upperhex (c % 16) :: QueryEscape s
    else c :: QueryEscape s

/-- Go `url.Values`, a `map[string][]string`, as the list of its entries. -/
abbrev Values := List (GoString × List GoString)

/-- Go `Values.Add`: appends the value to the values of the key. -/
def Values.Add : Values → GoString → GoString → Values
  | [], key, value => [(key, [value])]
  | (k, vs) :: rest, key, value =>
    if k = key then (k, vs ++ [value]) :: rest else (k, vs) :: Values.Add rest key value

/-- The order of Go strings: byte by byte. -/
def strLess : GoString → GoString → Bool
  | [], [] => false
  | [], _ :: _ => true
  | _ :: _, [] => false
  | a :: s, b :: t => if a < b then true else if b < a then false else strLess s t

/-- Insertion of an entry before the first entry with a greater key. -/
def insertByKey (e : GoString × List GoString) : Values → Values
  | [] => [e]
  | f :: rest => if strLess e.1 f.1 then e :: f :: rest else f :: insertByKey e rest

/-- The entries in the order of their keys (`slices.Sort(keys)` in `Values.Encode`). -/
def sortByKey : Values → Values
  | [] => []
  | e :: rest => insertByKey e (sortByKey rest)

/-- The inner loop of `Values.Encode`: writes `key=value` for each value of a key,
with `&` before it when the buffer is not empty. -/
def encodeKey (keyEscaped : GoString) : List GoString → GoString → GoString
  | [], buf => buf
  | v :: vs, buf =>
    encodeKey keyEscaped vs
      ((if buf.length > 0 then buf ++ [38] else buf) ++ keyEscaped ++ [61] ++ QueryEscape v)

/-- The outer loop of `Values.Encode` over the sorted keys. -/
def encodeEntries : Values → GoString → GoString
  | [], buf => buf
  | (k, vs) :: rest, buf => encodeEntries rest (encodeKey (QueryEscape k) vs buf)

/-- Go `Values.Encode`: the "URL encoded" form, sorted by key. -/
def Values.Encode (v : Values) : GoString :=
  encodeEntries (sortByKey v) []

/-- The fields of `url.URL` the program sets. -/
structure URL where
  Scheme : GoString
  Host : GoString
  Path : GoString
  RawQuery : GoString
deriving DecidableEq, Repr

/-- Go `URL.String` for a URL with a scheme, a host and a path of unreserved
bytes and slashes (neither host nor path is escaped then):
`scheme://host/path?query`, the query part when `RawQuery` is not empty. -/
def URL.String (u : URL) : GoString :=
  u.Scheme ++ str "://" ++ u.Host ++ u.Path ++
    (if u.RawQuery ≠ [] then str "?" ++ u.RawQuery else [])

/-! ## package encoding/json: the text -/

/-- Go `utf8.EncodeRune`: the UTF-8 encoding of a rune; a surrogate or a rune
out of range is encoded as `RuneError`. -/
def EncodeRune (r : Nat) : GoString :=
  if r ≤ 0x7F then [r]
  else if r ≤ 0x7FF then [0xC0 + r / 64, 0x80 + r % 64]
  else if (0xD800 ≤ r ∧ r ≤ 0xDFFF) ∨ 0x10FFFF < r then [0xEF, 0xBF, 0xBD]
  else if r ≤ 0xFFFF then [0xE0 + r / 4096, 0x80 + r / 64 % 64, 0x80 + r % 64]
  else [0xF0 + r / 262144, 0x80 + r / 4096 % 64, 0x80 + r / 64 % 64, 0x80 + r % 64]

/-- A JSON value: what a JSON text denotes. -/
inductive JSON where
  | null
  | bool (b : Bool)
  | number (lit : GoString)
  | string (s : GoString)
  | array (elems : List JSON)
  | object (members : List (GoString × JSON))

/-- The value of a hexadecimal digit. -/
def hexVal (c : Nat) : Option Nat :=
  if 48 ≤ c ∧ c ≤ 57 then some (c - 48)
  else if 97 ≤ c ∧ c ≤ 102 then some (c - 87)
  else if 65 ≤ c ∧ c ≤ 70 then some (c - 55)
  else none

/-- Go `getu4` on the four bytes after `\u`: their value as a hexadecimal number. -/
def getu4 (s : GoString) : Option Nat :=
  match s with
  | a :: b :: c :: d :: _ =>
    match hexVal a, hexVal b, hexVal c, hexVal d with
    | some a, some b, some c, some d => some (a * 4096 + b * 256 + c * 16 + d)
    | _, _, _, _ => none
  | _ => none

/-- The white space of JSON: blank, tab, carriage return, line feed. -/
def isJSONSpace (c : Nat) : Bool := c == 32 || c == 9 || c == 13 || c == 10

/-- The text without its leading JSON white space. -/
def skipSpace (s : GoString) : GoString := s.dropWhile isJSONSpace

/-- The rest of a string literal after its opening quote: the decoded string
(Go `unquote`) and the text after the closing quote; `none` for a syntax error.
Escapes are resolved, a surrogate pair becomes one rune, a lone surrogate and
ill-formed UTF-8 become U+FFFD, a control character is an error. -/
def scanString : Nat → GoString → GoString → Option (GoString × GoString)
  | 0, _, _ => none
  | fuel + 1, s, acc =>
    match s with
    | [] => none
    | c :: rest =>
      if c = 34 then some (acc, rest)
      else if c = 92 then
        match rest with
        | [] => none
        | e :: rest2 =>
          if e = 34 ∨ e = 92 ∨ e = 47 then scanString fuel rest2 (acc ++ [e])
          else if e = 98 then scanString fuel rest2 (acc ++ [8])
          else if e = 102 then scanString fuel rest2 (acc ++ [12])
          else if e = 110 then scanString fuel rest2 (acc ++ [10])
          else if e = 114 then scanString fuel rest2 (acc ++ [13])
          else if e = 116 then scanString fuel rest2 (acc ++ [9])
          else if e = 117 then
            match getu4 rest2 with
            | none => none
            | some rr =>
              if 0xD800 ≤ rr ∧ rr ≤ 0xDFFF then
                match rest2.drop 4 with
                | 92 :: 117 :: rest3 =>
                  match getu4 rest3 with
                  | some rr1 =>
                    if rr ≤ 0xDBFF ∧ 0xDC00 ≤ rr1 ∧ rr1 ≤ 0xDFFF then
                      scanString fuel (rest3.drop 4)
                        (acc ++ EncodeRune ((rr - 0xD800) * 1024 + (rr1 - 0xDC00) + 0x10000))
                    else scanString fuel (rest2.drop 4) (acc ++ EncodeRune RuneError)
                  | none => scanString fuel (rest2.drop 4) (acc ++ EncodeRune RuneError)
                | _ => scanString fuel (rest2.drop 4) (acc ++ EncodeRune RuneError)
              else scanString fuel (rest2.drop 4) (acc ++ EncodeRune rr)
          else none
      else if c < 32 then none
      else if c < 0x80 then scanString fuel rest (acc ++ [c])
      else scanString fuel (s.drop (DecodeRune s).2) (acc ++ EncodeRune (DecodeRune s).1)

/-- The leading decimal digits of a text, and the rest. -/
def spanDigits (s : GoString) : GoString × GoString :=
  (s.takeWhile (fun c => decide (48 ≤ c) && decide (c ≤ 57)),
   s.dropWhile (fun c => decide (48 ≤ c) && decide (c ≤ 57)))

/-- A number literal at the front of the text: an optional minus, `0` or a
digit from 1 to 9 with more digits, an optional fraction, an optional exponent. -/
def scanNumber (s : GoString) : Option (GoString × GoString) :=
  let (sign, s1) := match s with
    | 45 :: t => ([45], t)
    | _ => ([], s)
  let intPart : Option (GoString × GoString) := match s1 with
    | 48 :: t => some ([48], t)
    | c :: t => if 49 ≤ c ∧ c ≤ 57 then some (c :: (spanDigits t).1, (spanDigits t).2) else none
    | [] => none
  match intPart with
  | none => none
  | some (ip, s2) =>
    let frac : Option (GoString × GoString) := match s2 with
      | 46 :: t => if (spanDigits t).1 = [] then none else some (46 :: (spanDigits t).1, (spanDigits t).2)
      | _ => some ([], s2)
    match frac with
    | none => none
    | some (fp, s3) =>
      let exp : Option (GoString × GoString) := match s3 with
        | c :: t =>
          if c = 101 ∨ c = 69 then
            let (sg, t1) := match t with
              | d :: u => if d = 43 ∨ d = 45 then ([d], u) else ([], t)
              | [] => ([], t)
            if (spanDigits t1).1 = [] then none
            else some (c :: sg ++ (spanDigits t1).1, (spanDigits t1).2)
          else some ([], s3)
        | [] => some ([], s3)
      match exp with
      | none => none
      | some (ep, s4) => some (sign ++ ip ++ fp ++ ep, s4)

/-- The elements of an array after the first `[`, up to the closing `]`; pv reads
one value. -/
def scanElems (pv : GoString → Option (JSON × GoString)) :
    Nat → GoString → List JSON → Option (JSON × GoString)
  | 0, _, _ => none
  | fuel + 1, s, acc =>
    match pv s with
    | none => none
    | some (v, r) =>
      match skipSpace r with
      | 44 :: r2 => scanElems pv fuel r2 (acc ++ [v])
      | 93 :: r2 => some (JSON.array (acc ++ [v]), r2)
      | _ => none

/-- The members of an object after the first `{`, up to the closing `}`; pv reads
one value. -/
def scanMembers (pv : GoString → Option (JSON × GoString)) :
    Nat → GoString → List (GoString × JSON) → Option (JSON × GoString)
  | 0, _, _ => none
  | fuel + 1, s, acc =>
    match skipSpace s with
    | 34 :: r =>
      match scanString (r.length + 1) r [] with
      | none => none
      | some (key, r1) =>
        match skipSpace r1 with
        | 58 :: r2 =>
          match pv r2 with
          | none => none
          | some (v, r3) =>
            match skipSpace r3 with
            | 44 :: r4 => scanMembers pv fuel r4 (acc ++ [(key, v)])
            | 125 :: r4 => some (JSON.object (acc ++ [(key, v)]), r4)
            | _ => none
        | _ => none
    | _ => none

/-- The nesting limit of the scanner of encoding/json. -/
def maxNestingDepth : Nat := 10000

/-- One JSON value at the front of the text, after white space, and the text
after it; `none` for a syntax error.  The fuel bounds the nesting, depth is the
number of arrays and objects that are open. -/
def scanValue : Nat → Nat → GoString → Option (JSON × GoString)
  | 0, _, _ => none
  | fuel + 1, depth, s =>
    match skipSpace s with
    | [] => none
    | c :: rest =>
      if c = 123 then
        if depth + 1 > maxNestingDepth then none
        else
          match skipSpace rest with
          | 125 :: r => some (JSON.object [], r)
          | _ => scanMembers (scanValue fuel (depth + 1)) (rest.length + 1) rest []
      else if c = 91 then
        if depth + 1 > maxNestingDepth then none
        else
          match skipSpace rest with
          | 93 :: r => some (JSON.array [], r)
          | _ => scanElems (scanValue fuel (depth + 1)) (rest.length + 1) rest []
      else if c = 34 then
        match scanString (rest.length + 1) rest [] with
        | none => none
        | some (v, r) => some (JSON.string v, r)
      else if c = 45 ∨ (48 ≤ c ∧ c ≤ 57) then
        match scanNumber (c :: rest) with
        | none => none
        | some (v, r) => some (JSON.number v, r)
      else if (c :: rest).take 4 = str "true" then some (JSON.bool true, rest.drop 3)
      else if (c :: rest).take 5 = str "false" then some (JSON.bool false, rest.drop 4)
      else if (c :: rest).take 4 = str "null" then some (JSON.null, rest.drop 3)
      else none

/-- The value a JSON text denotes (Go `checkValid` and the reading of the text by
the decoder): one value with white space around it; `none` for a syntax error. -/
def scanJSON (data : GoString) : Option JSON :=
  match scanValue (data.length + 1) 0 data with
  | none => none
  | some (v, r) => if skipSpace r = [] then some v else none

/-! ## The types of the program -/

/-- The struct `CurrencyDate`: an embedded `time.Time` and the raw text. -/
structure CurrencyDate where
  Time : Time
  RawValue : GoString
deriving DecidableEq, Repr

/-- The struct `CurrencyRate`, with the JSON names `isoCode`, `avgRate` and
`referenceDate` of its fields. -/
structure CurrencyRate where
  IsoCode : GoString
  AvgRate : GoString
  ReferenceDate : CurrencyDate
deriving DecidableEq, Repr

/-- The struct `DailyRates`.  The tag of its field, `json:rates` without quotes,
is not in the form `key:"value"`, so encoding/json uses the Go name `Rates`. -/
structure DailyRates where
  Rates : List CurrencyRate
deriving DecidableEq, Repr

/-- The zero value of `CurrencyRate`. -/
def CurrencyRate.zero : CurrencyRate := ⟨[], [], ⟨Time.zero, []⟩⟩

/-! ## package encoding/json: filling the structs -/

/-- The lower-case form of an ASCII letter. -/
def lower (c : Nat) : Nat := if 65 ≤ c ∧ c ≤ 90 then c + 32 else c

/-- Whether a key of a JSON object is equal to a field name made of ASCII letters
under Unicode simple case folding (Go `bytes.EqualFold`): each letter matches its
other case, `k` also the Kelvin sign U+212A, `s` also the long s U+017F. -/
def equalFold : GoString → GoString → Bool
  | [], [] => true
  | [], _ :: _ => false
  | n :: name, key =>
    match key with
    | [] => false
    | c :: rest =>
      if c < 0x80 then lower c == lower n && equalFold name rest
      else if lower n = 107 then
        match key with
        | 0xE2 :: 0x84 :: 0xAA :: rest3 => equalFold name rest3
        | _ => false
      else if lower n = 115 then
        match key with
        | 0xC5 :: 0xBF :: rest2 => equalFold name rest2
        | _ => false
      else false

/-- The field a key selects, by its index in the list of field names: the field
of exactly that name, else the first field whose name is equal under folding. -/
def findField (names : List GoString) (key : GoString) : Option Nat :=
  if names.indexOf key < names.length then some (names.indexOf key)
  else if names.findIdx (fun n => equalFold n key) < names.length then
    some (names.findIdx (fun n => equalFold n key))
  else none

/-- The method `(*CurrencyDate).UnmarshalJSON`, on the JSON value its argument
holds.  `json.Unmarshal(data, &d.RawValue)` stores a string, leaves the field as it
is for `null` and fails for any other value; then the raw text is parsed. -/
def CurrencyDate.UnmarshalJSON (d : CurrencyDate) (data : JSON) : Except Error CurrencyDate :=
  let raw : Except Error GoString :=
    match data with
    | JSON.string s => Except.ok s
    | JSON.null => Except.ok d.RawValue
    | _ => Except.error Error.UnmarshalTypeError
  match raw with
  | Except.error err => Except.error err
  | Except.ok rawValue =>
    match timeParse (str "2006-01-02") layoutYMD rawValue with
    | Except.error err => Except.error err
    | Except.ok t => Except.ok ⟨t, rawValue⟩

/-- Decoding a JSON value into a Go string field: a string is stored, `null`
leaves the field as it is, any other value is an `UnmarshalTypeError`. -/
def decodeString (cur : GoString) : JSON → Except Error GoString
  | JSON.string s => Except.ok s
  | JSON.null => Except.ok cur
  | _ => Except.error Error.UnmarshalTypeError

/-- The JSON names of the fields of `CurrencyRate`. -/
def rateFields : List GoString := [str "isoCode", str "avgRate", str "referenceDate"]

/-- Decoding the members of a JSON object into a `CurrencyRate`, one after the
other; a member whose key selects no field is skipped. -/
def decodeRateMembers : List (GoString × JSON) → CurrencyRate → Except Error CurrencyRate
  | [], r => Except.ok r
  | (key, v) :: rest, r =>
    match findField rateFields key with
    | some 0 =>
      match decodeString r.IsoCode v with
      | Except.error err => Except.error err
      | Except.ok x => decodeRateMembers rest { r with IsoCode := x }
    | some 1 =>
      match decodeString r.AvgRate v with
      | Except.error err => Except.error err
      | Except.ok x => decodeRateMembers rest { r with AvgRate := x }
    | some 2 =>
      match r.ReferenceDate.UnmarshalJSON v with
      | Except.error err => Except.error err
      | Except.ok x => decodeRateMembers rest { r with ReferenceDate := x }
    | _ => decodeRateMembers rest r

/-- Decoding a JSON value into a `CurrencyRate` that holds cur: an object fills
the fields, `null` changes nothing, any other value is an `UnmarshalTypeError`. -/
def decodeRate (cur : CurrencyRate) : JSON → Except Error CurrencyRate
  | JSON.object members => decodeRateMembers members cur
  | JSON.null => Except.ok cur
  | _ => Except.error Error.UnmarshalTypeError

/-- Decoding the elements of a JSON array into a slice.  Element i is decoded
into element i of the backing array, which holds the zero value unless an
earlier array of the same JSON text was decoded into it. -/
def decodeElems : List JSON → List CurrencyRate → Except Error (List CurrencyRate)
  | [], _ => Except.ok []
  | v :: vs, backing =>
    match decodeRate (backing.headD CurrencyRate.zero) v with
    | Except.error err => Except.error err
    | Except.ok r =>
      match decodeElems vs backing.tail with
      | Except.error err => Except.error err
      | Except.ok rs => Except.ok (r :: rs)

/-- The slice `Rates` while it is decoded: its elements, and the elements of its
backing array after them. -/
structure RatesSlice where
  elems : List CurrencyRate
  spare : List CurrencyRate
deriving DecidableEq, Repr

/-- Decoding a JSON value into the field `Rates`: an array is decoded element by
element (an empty array gives a new empty slice), `null` gives the nil slice, any
other value is an `UnmarshalTypeError`. -/
def decodeRates (cur : RatesSlice) : JSON → Except Error RatesSlice
  | JSON.array [] => Except.ok ⟨[], []⟩
  | JSON.array (v :: vs) =>
    match decodeElems (v :: vs) (cur.elems ++ cur.spare) with
    | Except.error err => Except.error err
    | Except.ok rs => Except.ok ⟨rs, (cur.elems ++ cur.spare).drop rs.length⟩
  | JSON.null => Except.ok ⟨[], []⟩
  | _ => Except.error Error.UnmarshalTypeError

/-- Decoding the members of the top-level JSON object into a `DailyRates`. -/
def decodeDailyMembers : List (GoString × JSON) → RatesSlice → Except Error RatesSlice
  | [], cur => Except.ok cur
  | (key, v) :: rest, cur =>
    match findField [str "Rates"] key with
    | some _ =>
      match decodeRates cur v with
      | Except.error err => Except.error err
      | Except.ok x => decodeDailyMembers rest x
    | none => decodeDailyMembers rest cur

/-- Go `json.Unmarshal(data, rates)` for `rates` a pointer to a new `DailyRates`.
The text must be valid JSON; an object fills the struct, `null` leaves it as it
is, any other value is an `UnmarshalTypeError`.  Of several errors the decoder
could report, the first one met is kept; the program panics on any of them. -/
def Unmarshal (data : GoString) : Except Error DailyRates :=
  match scanJSON data with
  | none => Except.error Error.SyntaxError
  | some (JSON.object members) =>
    match decodeDailyMembers members ⟨[], []⟩ with
    | Except.error err => Except.error err
    | Except.ok x => Except.ok ⟨x.elems⟩
  | some JSON.null => Except.ok ⟨[]⟩
  | some _ => Except.error Error.UnmarshalTypeError

/-! ## package bufio -/

/-- The size of the buffer of `bufio.NewReader`. -/
def defaultBufSize : Nat := 4096

/-- Go `(*bufio.Reader).ReadLine` on a reader over the given unread input, which
ends in end-of-file: the line, `isPrefix`, the error, and the input left.  A line
is found when its `\n` is among the first `defaultBufSize` bytes; otherwise a
full buffer is returned as a prefix of the line, and at the end of the input what
is left is returned as the last line. -/
def ReadLine (input : GoString) : GoString × Bool × Option Error × GoString :=
  let i := input.findIdx (fun c => c == 10)
  if i < input.length ∧ i < defaultBufSize then
    let drop := if i ≥ 1 ∧ input.getD (i - 1) 0 = 13 then 1 else 0
    (input.take (i - drop), false, none, input.drop (i + 1))
  else if input.length ≥ defaultBufSize then
    if input.getD (defaultBufSize - 1) 0 = 13 then
      (input.take (defaultBufSize - 1), true, none, input.drop (defaultBufSize - 1))
    else (input.take defaultBufSize, true, none, input.drop defaultBufSize)
  else if input.length = 0 then ([], false, some Error.EOF, [])
  else (input, false, none, [])

/-! ## The program -/

/-- The function `readDateLine` on a reader over the given unread input: its
result and the input left. -/
def readDateLine (r : GoString) : Except Error Time × GoString :=
  match ReadLine r with
  | (_, _, some err, rest) => (Except.error err, rest)
  | (text, _, none, rest) =>
    match timeParse (str "02/01/2006") layoutDMY (TrimSpace text) with
    | Except.error err => (Except.error err, rest)
    | Except.ok t => (Except.ok t, rest)

/-- What `http.NewRequest` and `req.Header.Add` make: method, URL and headers. -/
structure Request where
  Method : GoString
  URL : GoString
  Header : List (GoString × GoString)
deriving DecidableEq, Repr

/-- What the program uses of an `http.Response`: the status code, and the result
of `ioutil.ReadAll` on the body. -/
structure Response where
  StatusCode : Nat
  Body : Except Error GoString

/-- The HTTP client with the remote service behind it: `client.Do`. -/
abbrev Client := Request → Except Error Response

/-- How a call ends: it returns a value, returns an error, or panics. -/
inductive Outcome (α : Type) where
  | ok (v : α)
  | error (err : Error)
  | panic (err : Error)
deriving DecidableEq, Repr

/-- The `url.Values` that `GetDailyRates` builds. -/
def queryValues (date : Time) (currency baseCurrency : GoString) : Values :=
  let values : Values :=
    [(str "referenceDate", [date.Format]), (str "currencyIsoCode", [currency])]
  if baseCurrency ≠ [] then values.Add (str "baseCurrencyIsoCode") baseCurrency else values

/-- The `url.URL` that `GetDailyRates` builds. -/
def queryURL (date : Time) (currency baseCurrency : GoString) : URL :=
  { Scheme := str "https"
    Host := str "tassidicambio.bancaditalia.it"
    Path := str "/terzevalute-wf-web/rest/v1.0/dailyRates"
    RawQuery := (queryValues date currency baseCurrency).Encode }

/-- The request that `GetDailyRates` builds; `http.NewRequest` does not fail on
the text of this URL. -/
def newRequest (date : Time) (currency baseCurrency : GoString) : Request :=
  { Method := str "GET"
    URL := (queryURL date currency baseCurrency).String
    Header := [(str "Accept", str "application/json")] }

/-- The function `GetDailyRates`. -/
def GetDailyRates (client : Client) (date : Time) (currency baseCurrency : GoString) :
    Outcome DailyRates :=
  match client (newRequest date currency baseCurrency) with
  | Except.error err => Outcome.error err
  | Except.ok res =>
    match res.Body with
    | Except.error err => Outcome.panic err
    | Except.ok body =>
      if res.StatusCode = 400 then
        Outcome.error (Error.errorString (str "error: " ++ TrimSpace body))
      else
        match Unmarshal body with
        | Except.error err => Outcome.panic err
        | Except.ok rates => Outcome.ok rates

/-- What the program does that can be seen from outside, in the order it does it. -/
inductive Event where
  /-- A call of `readDateLine` that consumed the given bytes of standard input. -/
  | read (consumed : GoString)
  /-- A call of `client.Do` with the given request. -/
  | fetch (req : Request)
  /-- A call of the builtin `println` that wrote the given bytes. -/
  | print (line : GoString)
deriving DecidableEq, Repr

/-- The state of the process: the unread standard input, what the program wrote
to standard output and to standard error, and the events so far. -/
structure World where
  stdin : GoString
  stdout : GoString
  stderr : GoString
  trace : List Event
deriving DecidableEq, Repr

/-- How the process stands: it returned from `main`, it panicked, or the loop of
`main` is still going (the fuel of the model ran out). -/
inductive Exit where
  | returned
  | panicked (err : Error)
  | running
deriving DecidableEq, Repr

/-- The arguments of `println` with a blank between them. -/
def joinArgs : List GoString → GoString
  | [] => []
  | [a] => a
  | a :: b :: rest => a ++ [32] ++ joinArgs (b :: rest)

/-- The builtin `println` of Go: it writes its arguments, with a blank between
them and a newline after them, to standard error. -/
def println (args : List GoString) (w : World) : World :=
  { w with stderr := w.stderr ++ (joinArgs args ++ [10])
           trace := w.trace ++ [Event.print (joinArgs args ++ [10])] }

/-- The error of `fmt.Errorf("unexpected rate date: %s", t)`; `%s` of a
`*time.Time` calls `Time.String`. -/
def unexpectedRateDate (t : Time) : Error :=
  Error.errorString (str "unexpected rate date: " ++ t.String)

/-- The inner loop of `main` over `rates.Rates` for the requested date t: the
world after it, and the error of the panic if it panicked. -/
def printRates (t : Time) (multipleCurrencies : Bool) :
    List CurrencyRate → World → World × Option Error
  | [], w => (w, none)
  | i :: rest, w =>
    if i.ReferenceDate.Time ≠ t then (w, some (unexpectedRateDate t))
    else if multipleCurrencies then
      printRates t multipleCurrencies rest (println [i.IsoCode, i.AvgRate] w)
    else printRates t multipleCurrencies rest (println [i.AvgRate] w)

/-- The struct of the variable `CmdFlags`, with the values after `flag.Parse`. -/
structure CmdFlags where
  BaseCurrency : GoString
  Currency : GoString
deriving DecidableEq, Repr

/-- One pass of the loop of `main`: the world after it, and `Exit.running` when
the loop goes on to the next pass. -/
def mainStep (client : Client) (flags : CmdFlags) (w : World) : World × Exit :=
  match readDateLine w.stdin with
  | (r, rest) =>
    let w1 : World :=
      { w with stdin := rest
               trace := w.trace ++ [Event.read (w.stdin.take (w.stdin.length - rest.length))] }
    match r with
    | Except.error Error.EOF => (w1, Exit.returned)
    | Except.error err => (w1, Exit.panicked err)
    | Except.ok t =>
      let w2 : World :=
        { w1 with trace := w1.trace ++ [Event.fetch (newRequest t flags.Currency flags.BaseCurrency)] }
      match GetDailyRates client t flags.Currency flags.BaseCurrency with
      | Outcome.error err => (w2, Exit.panicked err)
      | Outcome.panic err => (w2, Exit.panicked err)
      | Outcome.ok rates =>
        match printRates t (decide (rates.Rates.length > 1)) rates.Rates w2 with
        | (w3, some err) => (w3, Exit.panicked err)
        | (w3, none) => (w3, Exit.running)

/-- The loop of `main`, for at most the given number of passes. -/
def mainLoop (client : Client) (flags : CmdFlags) : Nat → World → World × Exit
  | 0, w => (w, Exit.running)
  | fuel + 1, w =>
    match mainStep client flags w with
    | (w1, Exit.running) => mainLoop client flags fuel w1
    | (w1, e) => (w1, e)

/-- The function `main` on the given flags and standard input.  Every pass of the
loop but the last consumes a byte of the input, so one pass more than the input
has bytes is enough. -/
def main (client : Client) (flags : CmdFlags) (stdin : GoString) : World × Exit :=
  mainLoop client flags (stdin.length + 1) ⟨stdin, [], [], []⟩

/-! ## The words of the specification -/

/-- The number of days of a month of a year in the Gregorian calendar. -/
def daysInMonth (month year : Nat) : Nat :=
  if month = 2 then
    if (year % 4 = 0 ∧ year % 100 ≠ 0) ∨ year % 400 = 0 then 29 else 28
  else if month = 4 ∨ month = 6 ∨ month = 9 ∨ month = 11 then 30
  else 31

/-- The byte is a decimal digit, `0` to `9`. -/
def isDec (c : Nat) : Prop := 48 ≤ c ∧ c ≤ 57

instance isDec.decidable (c : Nat) : Decidable (isDec c) :=
  inferInstanceAs (Decidable (48 ≤ c ∧ c ≤ 57))

/-- The text has exactly the shape `DD/MM/YYYY`, two digits, a slash, two digits,
a slash, four digits and nothing else, with a month from 1 to 12; its numbers are
the day d, the month m and the year y. -/
def ShapeDMY (s : GoString) (y m d : Nat) : Prop :=
  ∃ d1 d2 m1 m2 y1 y2 y3 y4, s = [d1, d2, 47, m1, m2, 47, y1, y2, y3, y4] ∧
    isDec d1 ∧ isDec d2 ∧ isDec m1 ∧ isDec m2 ∧ isDec y1 ∧ isDec y2 ∧ isDec y3 ∧ isDec y4 ∧
    d = (d1 - 48) * 10 + (d2 - 48) ∧ m = (m1 - 48) * 10 + (m2 - 48) ∧
    y = (y1 - 48) * 1000 + (y2 - 48) * 100 + (y3 - 48) * 10 + (y4 - 48) ∧ 1 ≤ m ∧ m ≤ 12

/-- The text has exactly the shape `YYYY-MM-DD` with a month from 1 to 12; its
numbers are the year y, the month m and the day d. -/
def ShapeYMD (s : GoString) (y m d : Nat) : Prop :=
  ∃ y1 y2 y3 y4 m1 m2 d1 d2, s = [y1, y2, y3, y4, 45, m1, m2, 45, d1, d2] ∧
    isDec d1 ∧ isDec d2 ∧ isDec m1 ∧ isDec m2 ∧ isDec y1 ∧ isDec y2 ∧ isDec y3 ∧ isDec y4 ∧
    d = (d1 - 48) * 10 + (d2 - 48) ∧ m = (m1 - 48) * 10 + (m2 - 48) ∧
    y = (y1 - 48) * 1000 + (y2 - 48) * 100 + (y3 - 48) * 10 + (y4 - 48) ∧ 1 ≤ m ∧ m ≤ 12

/-- The pieces of a raw query between its `&` bytes, as `url.ParseQuery` cuts
them; cur is the piece being read. -/
def splitAmp : GoString → GoString → List GoString
  | [], cur => [cur]
  | c :: s, cur => if c = 38 then cur :: splitAmp s [] else splitAmp s (cur ++ [c])

/-- The parameters of a raw query: for each piece between `&` bytes the key before
its first `=` and the value after it, both as they are written in the query. -/
def rawParams (q : GoString) : List (GoString × GoString) :=
  (splitAmp q []).map
    (fun p => (p.takeWhile (fun c => c != 61), (p.dropWhile (fun c => c != 61)).drop 1))

/-- The line of an entry of a response with n entries: `isoCode`, a blank and
`avgRate` when there is more than one entry, `avgRate` alone otherwise, then a
newline. -/
def rateLine (n : Nat) (i : CurrencyRate) : GoString :=
  if n > 1 then i.IsoCode ++ [32] ++ i.AvgRate ++ [10] else i.AvgRate ++ [10]

/-- Two times have the same year, month and day. -/
def sameDay (a b : Time) : Prop := a.year = b.year ∧ a.month = b.month ∧ a.day = b.day

instance sameDay.decidable (a b : Time) : Decidable (sameDay a b) :=
  inferInstanceAs (Decidable (a.year = b.year ∧ a.month = b.month ∧ a.day = b.day))

/-- A time has no time of day: it is a midnight. -/
def isMidnight (t : Time) : Prop := t.hour = 0 ∧ t.min = 0 ∧ t.sec = 0 ∧ t.nsec = 0

/-- A client that answers every request with the same status and body. -/
def constClient (status : Nat) (body : GoString) : Client :=
  fun _ => Except.ok ⟨status, Except.ok body⟩

/-- Every element of the slice and of its backing array is a midnight. -/
def RatesSlice.Midnight (s : RatesSlice) : Prop :=
  (∀ r ∈ s.elems, isMidnight r.ReferenceDate.Time) ∧ ∀ r ∈ s.spare, isMidnight r.ReferenceDate.Time


/-- A body for the examples, with two entries for 15 January 2024. -/
def twoRatesBody : GoString :=
  str ("\x7b\"rates\":[\x7b\"isoCode\":\"EUR\",\"avgRate\":\"0.92\",\"referenceDate\":\"2024-01-15\"\x7d," ++
    "\x7b\"isoCode\":\"USD\",\"avgRate\":\"1.00\",\"referenceDate\":\"2024-01-15\"\x7d]\x7d")

/-- A body for the examples, with an entry for 15 January 2024 and one for the day
before. -/
def staleRateBody : GoString :=
  str ("\x7b\"rates\":[\x7b\"isoCode\":\"EUR\",\"avgRate\":\"0.92\",\"referenceDate\":\"2024-01-15\"\x7d," ++
    "\x7b\"isoCode\":\"USD\",\"avgRate\":\"1.00\",\"referenceDate\":\"2024-01-14\"\x7d]\x7d")

/-- The entry `EUR 0.92` of 15 January 2024. -/
def eurRate : CurrencyRate := ⟨str "EUR", str "0.92", ⟨⟨2024, 1, 15, 0, 0, 0, 0⟩, str "2024-01-15"⟩⟩

/-- The entry `USD 1.00` of 15 January 2024. -/
def usdRate : CurrencyRate := ⟨str "USD", str "1.00", ⟨⟨2024, 1, 15, 0, 0, 0, 0⟩, str "2024-01-15"⟩⟩

/-- The entry `USD 1.00` of 14 January 2024. -/
def staleRate : CurrencyRate := ⟨str "USD", str "1.00", ⟨⟨2024, 1, 14, 0, 0, 0, 0⟩, str "2024-01-14"⟩⟩

/-- The world at the start of the process, with the given standard input. -/
def World.start (stdin : GoString) : World := ⟨stdin, [], [], []⟩

/-- A body for the examples, with one entry for 15 January 2024. -/
def oneRateBody : GoString :=
  str "\x7b\"rates\":[\x7b\"isoCode\":\"EUR\",\"avgRate\":\"0.92\",\"referenceDate\":\"2024-01-15\"\x7d]\x7d"

/-- The value of the first member of a JSON object that has exactly the given
name. -/
def JSON.member (name : GoString) : JSON → Option JSON
  | JSON.object ms => (ms.find? (fun kv => kv.1 == name)).map Prod.snd
  | _ => none

/-- The elements of a JSON array. -/
def JSON.elems : JSON → Option (List JSON)
  | JSON.array es => some es
  | _ => none

/-- The content of a JSON string. -/
def JSON.asString : JSON → Option GoString
  | JSON.string s => some s
  | _ => none

/-- The string that the member of the given name of a JSON object holds. -/
def JSON.memberString (name : GoString) (v : JSON) : Option GoString :=
  (v.member name).bind JSON.asString

/-- The JSON object e is an entry with the strings iso, avg and ref in its members
`isoCode`, `avgRate` and `referenceDate`, and every member whose name selects one
of the three fields of `CurrencyRate`, by that name or by a name equal to it under
case folding, holds the string of that field. -/
def EntryOK (e : JSON) (iso avg ref : GoString) : Prop :=
  ∃ fs, e = JSON.object fs ∧
    (str "isoCode", JSON.string iso) ∈ fs ∧ (str "avgRate", JSON.string avg) ∈ fs ∧
    (str "referenceDate", JSON.string ref) ∈ fs ∧
    ∀ kv ∈ fs, (findField rateFields kv.1 = some 0 → kv.2 = JSON.string iso) ∧
      (findField rateFields kv.1 = some 1 → kv.2 = JSON.string avg) ∧
      (findField rateFields kv.1 = some 2 → kv.2 = JSON.string ref)

/-- The entry e of a body is decoded as the rate r: r carries the strings of the
members `isoCode` and `avgRate` of e, and the calendar date that the member
`referenceDate` writes in the form `YYYY-MM-DD`. -/
def Decodes (e : JSON) (r : CurrencyRate) : Prop :=
  ∃ iso avg ref y m d, EntryOK e iso avg ref ∧ ShapeYMD ref y m d ∧ 1 ≤ d ∧
    d ≤ daysInMonth m y ∧ r = ⟨iso, avg, ⟨⟨y, m, d, 0, 0, 0, 0⟩, ref⟩⟩

/-- A body for the examples: one entry, with a member `ISOCODE` after the member
`isoCode`. -/
def foldedKeyBody : GoString :=
  str ("\x7b\"rates\":[\x7b\"isoCode\":\"EUR\",\"avgRate\":\"0.92\",\"referenceDate\":\"2024-01-15\"," ++
    "\"ISOCODE\":\"USD\"\x7d]\x7d")

/-- A line of input as `ReadLine` returns it when a newline ends it: without a
carriage return right before the newline. -/
def chomp (line : GoString) : GoString :=
  if line.getLast? = some 13 then line.dropLast else line

/-- The standard input made of the given lines, each ended by a newline, and
after them of a last line that no newline ends, if there is one. -/
def stdinOf (lines : List (GoString × Time)) (last : Option (GoString × Time)) : GoString :=
  (lines.map (fun p => p.1 ++ [10])).flatten ++ (last.toList.map (fun p => p.1)).flatten

/-- The entries that the service answers for a date, none if the call fails. -/
def ratesOf (client : Client) (flags : CmdFlags) (t : Time) : List CurrencyRate :=
  match GetDailyRates client t flags.Currency flags.BaseCurrency with
  | Outcome.ok rates => rates.Rates
  | _ => []

/-- The lines printed for a date. -/
def passOutput (client : Client) (flags : CmdFlags) (t : Time) : GoString :=
  ((ratesOf client flags t).map (rateLine (ratesOf client flags t).length)).flatten

/-- The events of the pass of the loop for a date: the read of its line, the
fetch, and the prints of the lines of its entries. -/
def passTrace (client : Client) (flags : CmdFlags) (consumed : GoString) (t : Time) : List Event :=
  [Event.read consumed, Event.fetch (newRequest t flags.Currency flags.BaseCurrency)] ++
    (ratesOf client flags t).map (fun i => Event.print (rateLine (ratesOf client flags t).length i))

/-- The requests of the fetches among the events, in their order. -/
def fetches : List Event → List Request
  | [] => []
  | Event.fetch req :: rest => req :: fetches rest
  | _ :: rest => fetches rest

/-- What the process writes to standard error for the given lines of input. -/
def outputOf (client : Client) (flags : CmdFlags) (lines : List (GoString × Time))
    (last : Option (GoString × Time)) : GoString :=
  (lines.map (fun p => passOutput client flags p.2)).flatten ++
    (last.toList.map (fun p => passOutput client flags p.2)).flatten

/-- The events of the process for the given lines of input: one pass for each
line, in the order of the lines, and the read that meets the end of the input. -/
def traceOf (client : Client) (flags : CmdFlags) (lines : List (GoString × Time))
    (last : Option (GoString × Time)) : List Event :=
  (lines.map (fun p => passTrace client flags (p.1 ++ [10]) p.2)).flatten ++
    (last.toList.map (fun p => passTrace client flags p.1 p.2)).flatten ++ [Event.read []]

/-- A client for the examples: it answers a request with one entry `EUR 0.92` for
the date that the last ten bytes of the URL of the request write. -/
def echoClient : Client :=
  fun req => Except.ok ⟨200, Except.ok
    (str "\x7b\"rates\":[\x7b\"isoCode\":\"EUR\",\"avgRate\":\"0.92\",\"referenceDate\":\"" ++
      req.URL.drop (req.URL.length - 10) ++ str "\"\x7d]\x7d")⟩

/-! ## Parsing dates -/

theorem layoutDMY_eq : layoutDMY =
    [([], Std.stdZeroDay), ([47], Std.stdZeroMonth), ([47], Std.stdLongYear), ([], Std.none)] := by
  decide

theorem daysIn_eq (m y : Nat) (h1 : 1 ≤ m) (h2 : m ≤ 12) : daysIn m y = daysInMonth m y := by
  interval_cases m <;> simp [daysIn, daysInMonth, daysBefore, isLeap]
  all_goals split_ifs
  all_goals omega

theorem str_slash : str "/" = [47] := by decide

theorem getnum_nil : getnum [] true = none := by simp [getnum, isDigit]
theorem getnum_one (a : Nat) : getnum [a] true = none := by
  simp [getnum, isDigit]
theorem getnum_two (a b : Nat) (rest : GoString) :
    getnum (a :: b :: rest) true =
      if isDec a ∧ isDec b then some ((a - 48) * 10 + (b - 48), rest) else none := by
  simp only [getnum, isDigit, isDec, List.get?, List.getD_cons_zero, List.getD_cons_succ, List.drop]
  by_cases ha : 48 ≤ a ∧ a ≤ 57 <;> by_cases hb : 48 ≤ b ∧ b ≤ 57 <;> simp [ha, hb]

theorem atoi_four (a b c d : Nat) (ha : isDec a) :
    atoi [a, b, c, d] =
      if isDec b ∧ isDec c ∧ isDec d then
        some (((a - 48) * 1000 + (b - 48) * 100 + (c - 48) * 10 + (d - 48) : Nat) : Int)
      else none := by
  unfold isDec at *
  have h1 : ¬ (a = 45) := by omega
  have h2 : ¬ (a = 43) := by omega
  simp only [atoi, List.head?, Option.some.injEq, h1, h2, or_self, if_false, leadingInt, ha, and_self, if_true]
  by_cases hb : 48 ≤ b ∧ b ≤ 57
  · by_cases hc : 48 ≤ c ∧ c ≤ 57
    · by_cases hd : 48 ≤ d ∧ d ≤ 57
      · simp [hb, hc, hd, leadingInt]
        omega
      · simp [hb, hc, hd, leadingInt]
    · simp [hb, hc, leadingInt]
  · simp [hb, leadingInt]

theorem isDigit_cons (a : Nat) (rest : GoString) : isDigit (a :: rest) 0 = decide (isDec a) := by
  simp [isDigit, isDec]

theorem parseLoop_DMY (s : GoString) :
    parseLoop layoutDMY s ⟨0, -1, -1⟩ =
      match getnum s true with
      | none => none
      | some (d, v1) =>
        match skip v1 [47] with
        | none => none
        | some v2 =>
          match getnum v2 true with
          | none => none
          | some (m, v3) =>
            if (m : Int) ≤ 0 ∨ 12 < (m : Int) then none
            else
              match skip v3 [47] with
              | none => none
              | some v4 =>
                if v4.length < 4 ∨ !isDigit v4 0 then none
                else
                  match atoi (v4.take 4) with
                  | none => none
                  | some y => if (v4.drop 4).length ≠ 0 then none else some ⟨y, m, d⟩ := by
  simp only [layoutDMY, str_slash, parseLoop, skip]

theorem getnum_inv {s rest : GoString} {n : Nat} (h : getnum s true = some (n, rest)) :
    ∃ a b, s = a :: b :: rest ∧ isDec a ∧ isDec b ∧ n = (a - 48) * 10 + (b - 48) := by
  rcases s with _ | ⟨a, _ | ⟨b, t⟩⟩
  · simp [getnum_nil] at h
  · simp [getnum_one] at h
  · rw [getnum_two] at h
    by_cases hc : isDec a ∧ isDec b
    · rw [if_pos hc] at h
      simp only [Option.some.injEq, Prod.mk.injEq] at h
      exact ⟨a, b, by rw [h.2], hc.1, hc.2, h.1.symm⟩
    · rw [if_neg hc] at h
      exact absurd h (by simp)

theorem skip_one_inv {v rest : GoString} {c : Nat} (h : skip v [c] = some rest) : v = c :: rest := by
  rcases v with _ | ⟨a, t⟩
  · simp [skip] at h
  · simp only [skip] at h
    by_cases hc : a = c
    · simp [hc] at h
      rw [hc, h]
    · simp [hc] at h

theorem year_inv {v : GoString} {y : Int} (h1 : ¬ (v.length < 4 ∨ (!isDigit v 0) = true))
    (h2 : atoi (v.take 4) = some y) (h3 : ¬ ((v.drop 4).length ≠ 0)) :
    ∃ a b c d, v = [a, b, c, d] ∧ isDec a ∧ isDec b ∧ isDec c ∧ isDec d ∧
      y = (((a - 48) * 1000 + (b - 48) * 100 + (c - 48) * 10 + (d - 48) : Nat) : Int) := by
  rcases v with _ | ⟨a, _ | ⟨b, _ | ⟨c, _ | ⟨d, _ | ⟨e, t⟩⟩⟩⟩⟩
  · simp at h1
  · simp at h1
  · simp at h1
  · simp at h1
  · rw [isDigit_cons] at h1
    have ha : isDec a := by
      by_contra hn
      apply h1
      right
      simp [hn]
    simp only [List.take, atoi_four _ _ _ _ ha] at h2
    by_cases hc : isDec b ∧ isDec c ∧ isDec d
    · rw [if_pos hc] at h2
      simp only [Option.some.injEq] at h2
      exact ⟨a, b, c, d, rfl, ha, hc.1, hc.2.1, hc.2.2, h2.symm⟩
    · rw [if_neg hc] at h2
      exact absurd h2 (by simp)
  · simp at h3

theorem parseLoop_DMY_inv {s : GoString} {f : Fields}
    (h : parseLoop layoutDMY s ⟨0, -1, -1⟩ = some f) :
    ∃ y m d, ShapeDMY s y m d ∧ f = ⟨(y : Int), (m : Int), (d : Int)⟩ := by
  rw [parseLoop_DMY] at h
  cases h1 : getnum s true with
  | none => simp [h1] at h
  | some p =>
    obtain ⟨d, v1⟩ := p
    simp only [h1] at h
    obtain ⟨d1, d2, rfl, hd1, hd2, rfl⟩ := getnum_inv h1
    cases h2 : skip v1 [47] with
    | none => simp [h2] at h
    | some v2 =>
      simp only [h2] at h
      have := skip_one_inv h2
      subst this
      cases h3 : getnum v2 true with
      | none => simp [h3] at h
      | some p =>
        obtain ⟨m, v3⟩ := p
        simp only [h3] at h
        obtain ⟨m1, m2, rfl, hm1, hm2, hm⟩ := getnum_inv h3
        by_cases hr : (m : Int) ≤ 0 ∨ 12 < (m : Int)
        · rw [if_pos hr] at h
          exact absurd h (by simp)
        · rw [if_neg hr] at h
          cases h4 : skip v3 [47] with
          | none => simp [h4] at h
          | some v4 =>
            simp only [h4] at h
            have := skip_one_inv h4
            subst this
            by_cases hl : v4.length < 4 ∨ (!isDigit v4 0) = true
            · rw [if_pos hl] at h
              exact absurd h (by simp)
            · rw [if_neg hl] at h
              cases h5 : atoi (v4.take 4) with
              | none => simp [h5] at h
              | some y =>
                simp only [h5] at h
                by_cases he : (v4.drop 4).length ≠ 0
                · rw [if_pos he] at h
                  exact absurd h (by simp)
                · rw [if_neg he] at h
                  obtain ⟨y1, y2, y3, y4, rfl, hy1, hy2, hy3, hy4, hy⟩ := year_inv hl h5 he
                  simp only [Option.some.injEq] at h
                  refine ⟨_, m, _, ⟨d1, d2, m1, m2, y1, y2, y3, y4, rfl, hd1, hd2, hm1, hm2, hy1, hy2,
                    hy3, hy4, rfl, hm, rfl, by omega, by omega⟩, ?_⟩
                  rw [← h, hy]

theorem parseLoop_DMY_of_shape {s : GoString} {y m d : Nat} (h : ShapeDMY s y m d) :
    parseLoop layoutDMY s ⟨0, -1, -1⟩ = some ⟨(y : Int), (m : Int), (d : Int)⟩ := by
  obtain ⟨d1, d2, m1, m2, y1, y2, y3, y4, rfl, hd1, hd2, hm1, hm2, hy1, hy2, hy3, hy4, hd, hm, hy,
    hlo, hhi⟩ := h
  have hr : ¬ ((m : Int) ≤ 0 ∨ 12 < (m : Int)) := by omega
  rw [parseLoop_DMY, getnum_two, if_pos ⟨hd1, hd2⟩]
  simp only [skip, if_true, getnum_two, if_pos (And.intro hm1 hm2), ← hm, if_neg hr, isDigit_cons,
    List.take, atoi_four _ _ _ _ hy1, if_pos (And.intro hy2 (And.intro hy3 hy4)), ← hy, ← hd]
  simp [hy1]

theorem timeParse_of_fields {name : GoString} {layout : Layout} {s : GoString} {y m d : Nat}
    (h : parseLoop layout s ⟨0, -1, -1⟩ = some ⟨(y : Int), (m : Int), (d : Int)⟩) :
    timeParse name layout s =
      if 1 ≤ d ∧ d ≤ daysIn m y then Except.ok ⟨y, m, d, 0, 0, 0, 0⟩
      else Except.error (Error.ParseError name s) := by
  have hm : ¬ ((m : Int) < 0) := by omega
  have hd : ¬ ((d : Int) < 0) := by omega
  simp only [timeParse, h, hm, hd, if_false, Int.toNat_ofNat]
  by_cases hc : 1 ≤ d ∧ d ≤ daysIn m y
  · have : ¬ ((d : Int) < 1 ∨ (d : Int) > (daysIn m y : Int)) := by omega
    rw [if_neg this, if_pos hc]
  · have : ((d : Int) < 1 ∨ (d : Int) > (daysIn m y : Int)) := by omega
    rw [if_pos this, if_neg hc]

theorem shapeDMY_unique {s : GoString} {y m d y' m' d' : Nat} (h : ShapeDMY s y m d)
    (h' : ShapeDMY s y' m' d') : y = y' ∧ m = m' ∧ d = d' := by
  obtain ⟨d1, d2, m1, m2, y1, y2, y3, y4, rfl, -, -, -, -, -, -, -, -, hd, hm, hy, -, -⟩ := h
  obtain ⟨e1, e2, n1, n2, z1, z2, z3, z4, he, -, -, -, -, -, -, -, -, hd', hm', hy', -, -⟩ := h'
  simp only [List.cons.injEq, and_true, true_and] at he
  obtain ⟨rfl, rfl, rfl, rfl, rfl, rfl, rfl, rfl⟩ := he
  exact ⟨by rw [hy, hy'], by rw [hm, hm'], by rw [hd, hd']⟩

theorem timeParse_DMY_ok_iff (s : GoString) (t : Time) :
    timeParse (str "02/01/2006") layoutDMY s = Except.ok t ↔
      ∃ y m d, ShapeDMY s y m d ∧ 1 ≤ d ∧ d ≤ daysInMonth m y ∧ t = ⟨y, m, d, 0, 0, 0, 0⟩ := by
  constructor
  · intro h
    cases hp : parseLoop layoutDMY s ⟨0, -1, -1⟩ with
    | none => simp [timeParse, hp] at h
    | some f =>
      obtain ⟨y, m, d, hs, rfl⟩ := parseLoop_DMY_inv hp
      rw [timeParse_of_fields hp] at h
      have hm : 1 ≤ m ∧ m ≤ 12 := by
        obtain ⟨_, _, _, _, _, _, _, _, _, _, _, _, _, _, _, _, _, _, _, _, h1, h2⟩ := hs
        exact ⟨h1, h2⟩
      by_cases hc : 1 ≤ d ∧ d ≤ daysIn m y
      · rw [if_pos hc] at h
        simp only [Except.ok.injEq] at h
        exact ⟨y, m, d, hs, hc.1, by rw [← daysIn_eq m y hm.1 hm.2]; exact hc.2, h.symm⟩
      · rw [if_neg hc] at h
        exact absurd h (by simp)
  · rintro ⟨y, m, d, hs, h1, h2, rfl⟩
    have hm : 1 ≤ m ∧ m ≤ 12 := by
      obtain ⟨_, _, _, _, _, _, _, _, _, _, _, _, _, _, _, _, _, _, _, _, h1, h2⟩ := hs
      exact ⟨h1, h2⟩
    rw [timeParse_of_fields (parseLoop_DMY_of_shape hs), if_pos]
    exact ⟨h1, by rw [daysIn_eq m y hm.1 hm.2]; exact h2⟩

theorem timeParse_error (name : GoString) (layout : Layout) (s : GoString) :
    (∃ t, timeParse name layout s = Except.ok t) ∨
      timeParse name layout s = Except.error (Error.ParseError name s) := by
  unfold timeParse
  cases parseLoop layout s ⟨0, -1, -1⟩ with
  | none => right; rfl
  | some f =>
    dsimp only
    by_cases hc : (if f.day < 0 then 1 else f.day) < 1 ∨
        (if f.day < 0 then 1 else f.day) >
          (daysIn (if f.month < 0 then 1 else f.month).toNat f.year.toNat : Int)
    · right; rw [if_pos hc]
    · left; rw [if_neg hc]; exact ⟨_, rfl⟩

/-- Claim C3: the date parse of `readDateLine`, `time.Parse("02/01/2006", s)`,
succeeds if and only if s has exactly the shape `DD/MM/YYYY` with a month from 1
to 12 and a day that exists in that month of that year; when it succeeds the date
has exactly the year, month and day written in s and no time of day; when s is not
of that form an error is returned and no date. -/
theorem readDateLine_parse_iff_shape (s : GoString) :
    ((∃ t, timeParse (str "02/01/2006") layoutDMY s = Except.ok t) ↔
        ∃ y m d, ShapeDMY s y m d ∧ 1 ≤ d ∧ d ≤ daysInMonth m y) ∧
      (∀ t y m d, timeParse (str "02/01/2006") layoutDMY s = Except.ok t → ShapeDMY s y m d →
        t = ⟨y, m, d, 0, 0, 0, 0⟩) ∧
      ((¬ ∃ y m d, ShapeDMY s y m d ∧ 1 ≤ d ∧ d ≤ daysInMonth m y) →
        timeParse (str "02/01/2006") layoutDMY s =
          Except.error (Error.ParseError (str "02/01/2006") s)) := by
  refine ⟨⟨?_, ?_⟩, ?_, ?_⟩
  · rintro ⟨t, ht⟩
    obtain ⟨y, m, d, hs, h1, h2, -⟩ := (timeParse_DMY_ok_iff s t).1 ht
    exact ⟨y, m, d, hs, h1, h2⟩
  · rintro ⟨y, m, d, hs, h1, h2⟩
    exact ⟨_, (timeParse_DMY_ok_iff s _).2 ⟨y, m, d, hs, h1, h2, rfl⟩⟩
  · intro t y m d ht hs
    obtain ⟨y', m', d', hs', -, -, rfl⟩ := (timeParse_DMY_ok_iff s t).1 ht
    obtain ⟨rfl, rfl, rfl⟩ := shapeDMY_unique hs hs'
    rfl
  · intro hn
    rcases timeParse_error (str "02/01/2006") layoutDMY s with ⟨t, ht⟩ | he
    · exfalso
      obtain ⟨y, m, d, hs, h1, h2, -⟩ := (timeParse_DMY_ok_iff s t).1 ht
      exact hn ⟨y, m, d, hs, h1, h2⟩
    · exact he


theorem str_dash : str "-" = [45] := by decide

theorem parseLoop_YMD_of_shape {s : GoString} {y m d : Nat} (h : ShapeYMD s y m d) :
    parseLoop layoutYMD s ⟨0, -1, -1⟩ = some ⟨(y : Int), (m : Int), (d : Int)⟩ := by
  obtain ⟨y1, y2, y3, y4, m1, m2, d1, d2, rfl, hd1, hd2, hm1, hm2, hy1, hy2, hy3, hy4, hd, hm, hy,
    hlo, hhi⟩ := h
  have hr : ¬ ((m1 - 48) * 10 + (m2 - 48) = 0 ∨ 12 < (m1 - 48) * 10 + (m2 - 48)) := by omega
  have e4 : List.drop 4 [y1, y2, y3, y4, 45, m1, m2, 45, d1, d2] = [45, m1, m2, 45, d1, d2] := rfl
  have t4 : List.take 4 [y1, y2, y3, y4, 45, m1, m2, 45, d1, d2] = [y1, y2, y3, y4] := rfl
  simp only [layoutYMD, str_dash, parseLoop, skip, isDigit_cons, e4, t4, atoi_four _ _ _ _ hy1,
    if_pos (And.intro hy2 (And.intro hy3 hy4)), if_true, getnum_two,
    if_pos (And.intro hm1 hm2), if_pos (And.intro hd1 hd2)]
  subst hd hm hy
  simp [hy1, hr, getnum_two, hm1, hm2, hd1, hd2, skip]
  omega

theorem timeParse_YMD_of_shape {s : GoString} {y m d : Nat} (h : ShapeYMD s y m d)
    (h1 : 1 ≤ d) (h2 : d ≤ daysInMonth m y) :
    timeParse (str "2006-01-02") layoutYMD s = Except.ok ⟨y, m, d, 0, 0, 0, 0⟩ := by
  have hm : 1 ≤ m ∧ m ≤ 12 := by
    obtain ⟨_, _, _, _, _, _, _, _, _, _, _, _, _, _, _, _, _, _, _, _, h1, h2⟩ := h
    exact ⟨h1, h2⟩
  rw [timeParse_of_fields (parseLoop_YMD_of_shape h), if_pos]
  exact ⟨h1, by rw [daysIn_eq m y hm.1 hm.2]; exact h2⟩

theorem Format_eq (t : Time) (hy : t.year < 10000) (hm : t.month < 100) (hd : t.day < 100) :
    t.Format = [48 + t.year / 1000, 48 + t.year / 100 % 10, 48 + t.year / 10 % 10, 48 + t.year % 10,
      45, 48 + t.month / 10, 48 + t.month % 10, 45, 48 + t.day / 10, 48 + t.day % 10] := by
  simp [Time.Format, appendInt, hy, hm, hd, str_dash]

theorem daysInMonth_le (m y : Nat) : daysInMonth m y ≤ 31 := by
  unfold daysInMonth
  split_ifs <;> omega

theorem shapeYMD_Format (t : Time) (hy : t.year < 10000) (hm1 : 1 ≤ t.month) (hm : t.month ≤ 12)
    (hd : t.day < 100) : ShapeYMD t.Format t.year t.month t.day := by
  refine ⟨_, _, _, _, _, _, _, _, Format_eq t hy (by omega) hd, ?_⟩
  unfold isDec
  omega

/-- A date that `time.Parse` makes from a text `DD/MM/YYYY`: four digits of year,
a month and a day of the calendar, midnight. -/
theorem timeParse_DMY_range {s : GoString} {t : Time}
    (h : timeParse (str "02/01/2006") layoutDMY s = Except.ok t) :
    t.year < 10000 ∧ 1 ≤ t.month ∧ t.month ≤ 12 ∧ 1 ≤ t.day ∧ t.day ≤ daysInMonth t.month t.year ∧
      t.hour = 0 ∧ t.min = 0 ∧ t.sec = 0 ∧ t.nsec = 0 := by
  obtain ⟨y, m, d, hs, h1, h2, rfl⟩ := (timeParse_DMY_ok_iff s t).1 h
  obtain ⟨d1, d2, m1, m2, y1, y2, y3, y4, -, hd1, hd2, hm1, hm2, hy1, hy2, hy3, hy4, hd, hm, hy,
    hlo, hhi⟩ := hs
  unfold isDec at *
  refine ⟨?_, hlo, hhi, h1, h2, rfl, rfl, rfl, rfl⟩
  show y < 10000
  omega

theorem timeParse_YMD_Format {s : GoString} {t : Time}
    (h : timeParse (str "02/01/2006") layoutDMY s = Except.ok t) :
    timeParse (str "2006-01-02") layoutYMD t.Format = Except.ok t := by
  obtain ⟨hy, hm1, hm, hd1, hd, hh, hmi, hs, hn⟩ := timeParse_DMY_range h
  have hd31 := daysInMonth_le t.month t.year
  rw [timeParse_YMD_of_shape (shapeYMD_Format t hy hm1 hm (by omega)) hd1 hd]
  cases t
  simp_all


theorem readDateLine_parse_iff_shape_witness :
    ∃ t, timeParse (str "02/01/2006") layoutDMY (str "29/02/2024") = Except.ok t :=
  (readDateLine_parse_iff_shape (str "29/02/2024")).1.2
    ⟨2024, 2, 29, ⟨50, 57, 48, 50, 50, 48, 50, 52, by decide, by decide, by decide, by decide,
      by decide, by decide, by decide, by decide, by decide, by decide, by decide, by decide,
      by decide, by decide⟩, by decide, by decide⟩

/-! ## The query of the request -/

theorem upperhex_ne (i : Nat) (h : i < 16) : upperhex i ≠ 38 ∧ upperhex i ≠ 61 := by
  unfold upperhex
  split_ifs <;> omega

theorem QueryEscape_mem (s : GoString) : ∀ c ∈ QueryEscape s, c ≠ 38 ∧ c ≠ 61 := by
  induction s with
  | nil => simp [QueryEscape]
  | cons a s ih =>
    intro c hc
    unfold QueryEscape at hc
    by_cases h32 : a = 32
    · rw [if_pos h32] at hc
      rcases List.mem_cons.1 hc with rfl | hc
      · omega
      · exact ih c hc
    · rw [if_neg h32] at hc
      by_cases he : shouldEscape a = true
      · rw [if_pos he] at hc
        rcases List.mem_cons.1 hc with rfl | hc
        · omega
        rcases List.mem_cons.1 hc with rfl | hc
        · exact upperhex_ne _ (Nat.mod_lt _ (by omega))
        rcases List.mem_cons.1 hc with rfl | hc
        · exact upperhex_ne _ (Nat.mod_lt _ (by omega))
        · exact ih c hc
      · rw [if_neg he] at hc
        rcases List.mem_cons.1 hc with rfl | hc
        · constructor
          · rintro rfl
            exact he (by decide)
          · rintro rfl
            exact he (by decide)
        · exact ih c hc

theorem QueryEscape_unreserved (s : GoString) (h : ∀ c ∈ s, shouldEscape c = false) :
    QueryEscape s = s := by
  induction s with
  | nil => rfl
  | cons a s ih =>
    have ha : shouldEscape a = false := h a (List.mem_cons_self _ _)
    have h32 : a ≠ 32 := by
      rintro rfl
      exact absurd ha (by decide)
    rw [QueryEscape, if_neg h32, ha]
    simp only [Bool.false_eq_true, if_false]
    rw [ih (fun c hc => h c (List.mem_cons_of_mem _ hc))]

theorem splitAmp_last (a cur : GoString) (h : ∀ c ∈ a, c ≠ 38) : splitAmp a cur = [cur ++ a] := by
  induction a generalizing cur with
  | nil => simp [splitAmp]
  | cons x a ih =>
    have hx : x ≠ 38 := h x (List.mem_cons_self _ _)
    rw [splitAmp, if_neg hx, ih _ (fun c hc => h c (List.mem_cons_of_mem _ hc))]
    simp

theorem splitAmp_amp (a rest cur : GoString) (h : ∀ c ∈ a, c ≠ 38) :
    splitAmp (a ++ 38 :: rest) cur = (cur ++ a) :: splitAmp rest [] := by
  induction a generalizing cur with
  | nil => simp [splitAmp]
  | cons x a ih =>
    have hx : x ≠ 38 := h x (List.mem_cons_self _ _)
    rw [List.cons_append, splitAmp, if_neg hx, ih _ (fun c hc => h c (List.mem_cons_of_mem _ hc))]
    simp

theorem takeWhile_key (k v : GoString) (h : ∀ c ∈ k, c ≠ 61) :
    (k ++ 61 :: v).takeWhile (fun c => c != 61) = k ∧
      ((k ++ 61 :: v).dropWhile (fun c => c != 61)).drop 1 = v := by
  induction k with
  | nil => simp
  | cons x k ih =>
    have hx : x ≠ 61 := h x (List.mem_cons_self _ _)
    have := ih (fun c hc => h c (List.mem_cons_of_mem _ hc))
    have hx' : (x != 61) = true := by simp [hx]
    rw [List.cons_append, List.takeWhile_cons, List.dropWhile_cons, hx']
    simp only [if_true]
    exact ⟨by rw [this.1], this.2⟩

theorem Encode_without_base (date : Time) (currency : GoString) :
    (queryValues date currency []).Encode =
      str "currencyIsoCode" ++ [61] ++ QueryEscape currency ++ [38] ++
        (str "referenceDate" ++ [61] ++ QueryEscape date.Format) := by
  have h1 : strLess (str "referenceDate") (str "currencyIsoCode") = false := by decide
  have e1 : QueryEscape (str "currencyIsoCode") = str "currencyIsoCode" := by decide
  have e2 : QueryEscape (str "referenceDate") = str "referenceDate" := by decide
  have n1 : (str "currencyIsoCode").length > 0 := by decide
  simp [queryValues, Values.Encode, sortByKey, insertByKey, h1, encodeEntries, encodeKey, e1, e2]

theorem Encode_with_base (date : Time) (currency baseCurrency : GoString) (hb : baseCurrency ≠ []) :
    (queryValues date currency baseCurrency).Encode =
      str "baseCurrencyIsoCode" ++ [61] ++ QueryEscape baseCurrency ++ [38] ++
        (str "currencyIsoCode" ++ [61] ++ QueryEscape currency ++ [38] ++
          (str "referenceDate" ++ [61] ++ QueryEscape date.Format)) := by
  have h1 : strLess (str "referenceDate") (str "currencyIsoCode") = false := by decide
  have h2 : strLess (str "baseCurrencyIsoCode") (str "currencyIsoCode") = true := by decide
  have h3 : strLess (str "currencyIsoCode") (str "baseCurrencyIsoCode") = false := by decide
  have h4 : strLess (str "referenceDate") (str "baseCurrencyIsoCode") = false := by decide
  have k1 : ¬ (str "referenceDate" = str "baseCurrencyIsoCode") := by decide
  have k2 : ¬ (str "currencyIsoCode" = str "baseCurrencyIsoCode") := by decide
  have e1 : QueryEscape (str "currencyIsoCode") = str "currencyIsoCode" := by decide
  have e2 : QueryEscape (str "referenceDate") = str "referenceDate" := by decide
  have e3 : QueryEscape (str "baseCurrencyIsoCode") = str "baseCurrencyIsoCode" := by decide
  simp [queryValues, hb, Values.Add, k1, k2, Values.Encode, sortByKey, insertByKey, h1, h2, h3, h4,
    encodeEntries, encodeKey, e1, e2, e3]

theorem rawParams_single (k v : GoString) (hk : ∀ c ∈ k, c ≠ 38 ∧ c ≠ 61) (hv : ∀ c ∈ v, c ≠ 38) :
    rawParams (k ++ [61] ++ v) = [(k, v)] := by
  have hp : ∀ c ∈ k ++ [61] ++ v, c ≠ 38 := by
    intro c hc
    simp only [List.mem_append, List.mem_singleton] at hc
    rcases hc with (hc | hc) | hc
    · exact (hk c hc).1
    · omega
    · exact hv c hc
  have ht := takeWhile_key k v (fun c hc => (hk c hc).2)
  rw [rawParams, splitAmp_last _ _ hp]
  simp only [List.nil_append, List.map_cons, List.map_nil, List.append_assoc, List.singleton_append,
    ht.1, ht.2]

theorem rawParams_cons (k v rest : GoString) (hk : ∀ c ∈ k, c ≠ 38 ∧ c ≠ 61)
    (hv : ∀ c ∈ v, c ≠ 38) :
    rawParams (k ++ [61] ++ v ++ [38] ++ rest) = (k, v) :: rawParams rest := by
  have hp : ∀ c ∈ k ++ [61] ++ v, c ≠ 38 := by
    intro c hc
    simp only [List.mem_append, List.mem_singleton] at hc
    rcases hc with (hc | hc) | hc
    · exact (hk c hc).1
    · omega
    · exact hv c hc
  have ht := takeWhile_key k v (fun c hc => (hk c hc).2)
  have e : k ++ [61] ++ v ++ [38] ++ rest = (k ++ [61] ++ v) ++ 38 :: rest := by simp
  rw [rawParams, e, splitAmp_amp _ _ _ hp]
  simp only [List.nil_append, List.map_cons, List.append_assoc, List.singleton_append, ht.1, ht.2]
  rfl

theorem rawParams_without_base (date : Time) (currency : GoString) :
    rawParams (queryURL date currency []).RawQuery =
      [(str "currencyIsoCode", QueryEscape currency), (str "referenceDate", QueryEscape date.Format)] := by
  have k1 : ∀ c ∈ str "currencyIsoCode", c ≠ 38 ∧ c ≠ 61 := by decide
  have k2 : ∀ c ∈ str "referenceDate", c ≠ 38 ∧ c ≠ 61 := by decide
  show rawParams (queryValues date currency []).Encode = _
  rw [Encode_without_base, rawParams_cons _ _ _ k1 (fun c hc => (QueryEscape_mem _ c hc).1),
    rawParams_single _ _ k2 (fun c hc => (QueryEscape_mem _ c hc).1)]

theorem rawParams_with_base (date : Time) (currency baseCurrency : GoString)
    (hb : baseCurrency ≠ []) :
    rawParams (queryURL date currency baseCurrency).RawQuery =
      [(str "baseCurrencyIsoCode", QueryEscape baseCurrency),
        (str "currencyIsoCode", QueryEscape currency), (str "referenceDate", QueryEscape date.Format)] := by
  have k0 : ∀ c ∈ str "baseCurrencyIsoCode", c ≠ 38 ∧ c ≠ 61 := by decide
  have k1 : ∀ c ∈ str "currencyIsoCode", c ≠ 38 ∧ c ≠ 61 := by decide
  have k2 : ∀ c ∈ str "referenceDate", c ≠ 38 ∧ c ≠ 61 := by decide
  show rawParams (queryValues date currency baseCurrency).Encode = _
  rw [Encode_with_base _ _ _ hb, rawParams_cons _ _ _ k0 (fun c hc => (QueryEscape_mem _ c hc).1),
    rawParams_cons _ _ _ k1 (fun c hc => (QueryEscape_mem _ c hc).1),
    rawParams_single _ _ k2 (fun c hc => (QueryEscape_mem _ c hc).1)]

/-- Claim C5, amended: the query of the request that `GetDailyRates` builds has a
parameter `baseCurrencyIsoCode` if and only if the base currency is not empty; when
it is empty the query has the parameters `currencyIsoCode` and `referenceDate`
only; when it is not empty the value of the parameter is the base currency as
`url.QueryEscape` writes it, which is the base currency itself when it is made of
letters, digits, `-`, `_`, `.` and `~` only. -/
theorem query_baseCurrency_iff_nonempty (date : Time) (currency baseCurrency : GoString) :
    (str "baseCurrencyIsoCode" ∈ (rawParams (queryURL date currency baseCurrency).RawQuery).map Prod.fst ↔
        baseCurrency ≠ []) ∧
      (baseCurrency = [] →
        rawParams (queryURL date currency baseCurrency).RawQuery =
          [(str "currencyIsoCode", QueryEscape currency),
            (str "referenceDate", QueryEscape date.Format)]) ∧
      (baseCurrency ≠ [] →
        rawParams (queryURL date currency baseCurrency).RawQuery =
          [(str "baseCurrencyIsoCode", QueryEscape baseCurrency),
            (str "currencyIsoCode", QueryEscape currency),
            (str "referenceDate", QueryEscape date.Format)]) ∧
      ((∀ c ∈ baseCurrency, shouldEscape c = false) → QueryEscape baseCurrency = baseCurrency) ∧
      (newRequest date currency baseCurrency).URL =
        str "https://tassidicambio.bancaditalia.it/terzevalute-wf-web/rest/v1.0/dailyRates?" ++
          (queryURL date currency baseCurrency).RawQuery := by
  have n1 : str "baseCurrencyIsoCode" ≠ str "currencyIsoCode" := by decide
  have n2 : str "baseCurrencyIsoCode" ≠ str "referenceDate" := by decide
  refine ⟨?_, ?_, ?_, QueryEscape_unreserved baseCurrency, ?_⟩
  · by_cases hb : baseCurrency = []
    · subst hb
      rw [rawParams_without_base]
      simp [n1, n2]
    · rw [rawParams_with_base _ _ _ hb]
      simp [hb]
  · rintro rfl
    exact rawParams_without_base date currency
  · exact rawParams_with_base date currency baseCurrency
  · have hq : (queryURL date currency baseCurrency).RawQuery ≠ [] := by
      show (queryValues date currency baseCurrency).Encode ≠ []
      by_cases hb : baseCurrency = []
      · subst hb
        rw [Encode_without_base]
        simp [str]
      · rw [Encode_with_base _ _ _ hb]
        simp [str]
    have hp : str "https" ++ str "://" ++ str "tassidicambio.bancaditalia.it" ++
        str "/terzevalute-wf-web/rest/v1.0/dailyRates" ++ str "?" =
        str "https://tassidicambio.bancaditalia.it/terzevalute-wf-web/rest/v1.0/dailyRates?" := by
      decide
    rw [← hp]
    simp only [newRequest, URL.String, if_pos hq]
    simp [queryURL]

set_option maxRecDepth 100000 in
/-- Claim C5 as stated fails: the base currency `A&B` is in the query as `A%26B`,
not as it was given. -/
theorem query_baseCurrency_not_verbatim :
    (queryURL ⟨2024, 1, 15, 0, 0, 0, 0⟩ (str "EUR") (str "A&B")).RawQuery =
        str "baseCurrencyIsoCode=A%26B&currencyIsoCode=EUR&referenceDate=2024-01-15" ∧
      ¬ (str "A&B" <:+: (queryURL ⟨2024, 1, 15, 0, 0, 0, 0⟩ (str "EUR") (str "A&B")).RawQuery) ∧
      (str "baseCurrencyIsoCode", str "A&B") ∉
        rawParams (queryURL ⟨2024, 1, 15, 0, 0, 0, 0⟩ (str "EUR") (str "A&B")).RawQuery := by
  decide

theorem query_baseCurrency_iff_nonempty_witness :
    rawParams (queryURL ⟨2024, 1, 15, 0, 0, 0, 0⟩ (str "EUR") (str "USD")).RawQuery =
      [(str "baseCurrencyIsoCode", QueryEscape (str "USD")),
        (str "currencyIsoCode", QueryEscape (str "EUR")),
        (str "referenceDate", QueryEscape (⟨2024, 1, 15, 0, 0, 0, 0⟩ : Time).Format)] ∧
      QueryEscape (str "USD") = str "USD" :=
  ⟨(query_baseCurrency_iff_nonempty ⟨2024, 1, 15, 0, 0, 0, 0⟩ (str "EUR") (str "USD")).2.2.1 (by decide),
    (query_baseCurrency_iff_nonempty ⟨2024, 1, 15, 0, 0, 0, 0⟩ (str "EUR") (str "USD")).2.2.2.1 (by decide)⟩

theorem QueryEscape_Format (t : Time) (hy : t.year < 10000) (hm : t.month < 100) (hd : t.day < 100) :
    QueryEscape t.Format = t.Format := by
  apply QueryEscape_unreserved
  rw [Format_eq t hy hm hd]
  intro c hc
  simp only [List.mem_cons, List.mem_singleton, List.not_mem_nil, or_false] at hc
  have hb : (48 ≤ c ∧ c ≤ 57) ∨ c = 45 := by omega
  rcases hb with hb | rfl
  · simp [shouldEscape, hb.1, hb.2]
  · decide

/-- Claim C9: for a date t that the parse of `readDateLine` makes from a text
`DD/MM/YYYY`, the value of `referenceDate` that `GetDailyRates` puts in the query
is the text `YYYY-MM-DD` of the year, month and day of t, and
`CurrencyDate.UnmarshalJSON` on that text gives a date that the test
`i.ReferenceDate.Time != *t` of `main` finds equal to t. -/
theorem parse_format_decode_roundtrip (s : GoString) (t : Time) (currency baseCurrency : GoString)
    (d0 : CurrencyDate) (h : timeParse (str "02/01/2006") layoutDMY s = Except.ok t) :
    (str "referenceDate", [t.Format]) ∈ queryValues t currency baseCurrency ∧
      (str "referenceDate", t.Format) ∈ rawParams (queryURL t currency baseCurrency).RawQuery ∧
      ShapeYMD t.Format t.year t.month t.day ∧
      ∃ cd, CurrencyDate.UnmarshalJSON d0 (JSON.string t.Format) = Except.ok cd ∧
        cd.RawValue = t.Format ∧ ¬ (cd.Time ≠ t) := by
  obtain ⟨hy, hm1, hm, hd1, hd, -, -, -, -⟩ := timeParse_DMY_range h
  have hd31 := daysInMonth_le t.month t.year
  have hq := QueryEscape_Format t hy (by omega) (by omega)
  refine ⟨?_, ?_, shapeYMD_Format t hy hm1 hm (by omega), ⟨t, t.Format⟩, ?_, rfl, by simp⟩
  · unfold queryValues
    split_ifs
    · simp [Values.Add, show ¬ (str "referenceDate" = str "baseCurrencyIsoCode") from by decide]
    · simp
  · by_cases hb : baseCurrency = []
    · subst hb
      rw [rawParams_without_base, hq]
      simp
    · rw [rawParams_with_base _ _ _ hb, hq]
      simp
  · simp only [CurrencyDate.UnmarshalJSON, timeParse_YMD_Format h]

theorem parse_format_decode_roundtrip_witness :
    ShapeYMD (⟨2024, 1, 15, 0, 0, 0, 0⟩ : Time).Format 2024 1 15 :=
  (parse_format_decode_roundtrip (str "15/01/2024") ⟨2024, 1, 15, 0, 0, 0, 0⟩ (str "EUR") []
    ⟨Time.zero, []⟩ (by decide)).2.2.1


/-! ## The answer of the service -/

/-- Claim C6, amended: for a response with status 400 and body b, `GetDailyRates`
returns no rates and an error whose message is `error: ` followed by b without
its leading and trailing white space, whether b is JSON or not. -/
theorem badRequest_error_message (client : Client) (date : Time) (currency baseCurrency : GoString)
    (res : Response) (body : GoString)
    (h1 : client (newRequest date currency baseCurrency) = Except.ok res)
    (h2 : res.StatusCode = 400) (h3 : res.Body = Except.ok body) :
    GetDailyRates client date currency baseCurrency =
      Outcome.error (Error.errorString (str "error: " ++ TrimSpace body)) := by
  simp only [GetDailyRates, h1, h3, h2, if_true]

theorem badRequest_error_message_witness :
    GetDailyRates (constClient 400 (str " Invalid currency code\n")) ⟨2024, 1, 15, 0, 0, 0, 0⟩
        (str "XXX") [] =
      Outcome.error (Error.errorString (str "error: " ++ TrimSpace (str " Invalid currency code\n"))) :=
  badRequest_error_message (constClient 400 (str " Invalid currency code\n")) ⟨2024, 1, 15, 0, 0, 0, 0⟩
    (str "XXX") [] ⟨400, Except.ok (str " Invalid currency code\n")⟩ (str " Invalid currency code\n")
    rfl rfl rfl

set_option maxRecDepth 100000 in
/-- Claim C6 as stated fails: for the body ` Invalid currency code` with a newline the
message is `error: Invalid currency code`, not the trimmed body alone. -/
theorem badRequest_message_has_prefix :
    GetDailyRates (constClient 400 (str " Invalid currency code\n")) ⟨2024, 1, 15, 0, 0, 0, 0⟩
        (str "XXX") [] =
      Outcome.error (Error.errorString (str "error: Invalid currency code")) ∧
    TrimSpace (str " Invalid currency code\n") = str "Invalid currency code" ∧
    str "error: Invalid currency code" ≠ TrimSpace (str " Invalid currency code\n") := by
  decide

/-- With a status other than 400, `GetDailyRates` decodes the body whatever the
status is. -/
theorem GetDailyRates_of_body (client : Client) (date : Time) (currency baseCurrency : GoString)
    (res : Response) (body : GoString)
    (h1 : client (newRequest date currency baseCurrency) = Except.ok res)
    (h2 : res.StatusCode ≠ 400) (h3 : res.Body = Except.ok body) :
    GetDailyRates client date currency baseCurrency =
      (Unmarshal body).casesOn (fun err => Outcome.panic err) (fun rates => Outcome.ok rates) := by
  simp only [GetDailyRates, h1, h3, h2, if_false]
  cases Unmarshal body <;> rfl

/-- Claim C7, amended: for a response whose status is not 400, whatever the status
is, `GetDailyRates` decodes the body: it returns the `DailyRates` with a nil error
when the body decodes, and panics when it does not; it never returns an error. So
a response with a status outside 200..299 other than 400 succeeds exactly when its
body decodes. -/
theorem otherStatus_decodes_body (client : Client) (date : Time) (currency baseCurrency : GoString)
    (res : Response) (body : GoString)
    (h1 : client (newRequest date currency baseCurrency) = Except.ok res)
    (h2 : res.StatusCode ≠ 400) (h3 : res.Body = Except.ok body) :
    (∀ rates, Unmarshal body = Except.ok rates →
        GetDailyRates client date currency baseCurrency = Outcome.ok rates) ∧
      (∀ err, Unmarshal body = Except.error err →
        GetDailyRates client date currency baseCurrency = Outcome.panic err) ∧
      ∀ err, GetDailyRates client date currency baseCurrency ≠ Outcome.error err := by
  have h := GetDailyRates_of_body client date currency baseCurrency res body h1 h2 h3
  refine ⟨?_, ?_, ?_⟩
  · intro rates hr
    rw [h, hr]
  · intro err hr
    rw [h, hr]
  · intro err
    rw [h]
    cases Unmarshal body <;> simp

set_option maxRecDepth 100000 in
theorem otherStatus_decodes_body_witness :
    GetDailyRates (constClient 503 (str "Service Unavailable")) ⟨2024, 1, 15, 0, 0, 0, 0⟩ (str "EUR") [] =
      Outcome.panic Error.SyntaxError :=
  (otherStatus_decodes_body (constClient 503 (str "Service Unavailable")) ⟨2024, 1, 15, 0, 0, 0, 0⟩
    (str "EUR") [] ⟨503, Except.ok (str "Service Unavailable")⟩ (str "Service Unavailable")
    rfl (by decide) rfl).2.1 Error.SyntaxError (by decide)

set_option maxRecDepth 100000 in
/-- Claim C7 as stated fails: a response with status 500 whose body is a JSON
object makes `GetDailyRates` return a `DailyRates` and a nil error. -/
theorem serverError_succeeds :
    ¬ (200 ≤ 500 ∧ 500 ≤ 299) ∧ 500 ≠ 400 ∧
      GetDailyRates (constClient 500 (str "\x7b\"error\":\"Internal Server Error\"\x7d"))
        ⟨2024, 1, 15, 0, 0, 0, 0⟩ (str "EUR") [] = Outcome.ok ⟨[]⟩ := by
  decide


/-! ## The loop over the entries of a response -/

theorem println_one (a : GoString) (w : World) :
    println [a] w = { w with stderr := w.stderr ++ (a ++ [10])
                             trace := w.trace ++ [Event.print (a ++ [10])] } := rfl

theorem println_two (a b : GoString) (w : World) :
    println [a, b] w = { w with stderr := w.stderr ++ (a ++ [32] ++ b ++ [10])
                                trace := w.trace ++ [Event.print (a ++ [32] ++ b ++ [10])] } := rfl

/-- The line that `println` writes for an entry in the loop of `main`. -/
theorem rateLine_eq (n : Nat) (i : CurrencyRate) :
    rateLine n i =
      if decide (n > 1) = true then joinArgs [i.IsoCode, i.AvgRate] ++ [10]
      else joinArgs [i.AvgRate] ++ [10] := by
  by_cases hn : n > 1 <;> simp [rateLine, hn, joinArgs]

theorem printRates_step (t : Time) (m : Bool) (i : CurrencyRate) (rest : List CurrencyRate)
    (w : World) (hi : i.ReferenceDate.Time = t) :
    printRates t m (i :: rest) w =
      printRates t m rest
        { w with stderr := w.stderr ++ (if m = true then joinArgs [i.IsoCode, i.AvgRate] ++ [10]
                              else joinArgs [i.AvgRate] ++ [10])
                 trace := w.trace ++ [Event.print (if m = true then joinArgs [i.IsoCode, i.AvgRate] ++ [10]
                              else joinArgs [i.AvgRate] ++ [10])] } := by
  cases m <;> simp [printRates, hi, println]

/-- The inner loop on entries that all carry the requested date. -/
theorem printRates_all_match (t : Time) (n : Nat) (rates : List CurrencyRate) (w : World)
    (h : ∀ i ∈ rates, i.ReferenceDate.Time = t) :
    printRates t (decide (n > 1)) rates w =
      ({ w with stderr := w.stderr ++ (rates.map (rateLine n)).flatten
                trace := w.trace ++ rates.map (fun i => Event.print (rateLine n i)) }, none) := by
  induction rates generalizing w with
  | nil => simp [printRates]
  | cons i rest ih =>
    have hi : i.ReferenceDate.Time = t := h i (List.mem_cons_self _ _)
    have hr : ∀ j ∈ rest, j.ReferenceDate.Time = t := fun j hj => h j (List.mem_cons_of_mem _ hj)
    rw [printRates_step _ _ _ _ _ hi, ih _ hr, ← rateLine_eq]
    simp

/-- The inner loop on entries of which the first that does not carry the requested
date is `bad`. -/
theorem printRates_mismatch (t : Time) (n : Nat) (pre : List CurrencyRate) (bad : CurrencyRate)
    (post : List CurrencyRate) (w : World) (h : ∀ i ∈ pre, i.ReferenceDate.Time = t)
    (hb : bad.ReferenceDate.Time ≠ t) :
    printRates t (decide (n > 1)) (pre ++ bad :: post) w =
      ({ w with stderr := w.stderr ++ (pre.map (rateLine n)).flatten
                trace := w.trace ++ pre.map (fun i => Event.print (rateLine n i)) },
        some (unexpectedRateDate t)) := by
  induction pre generalizing w with
  | nil => simp [printRates, hb]
  | cons i rest ih =>
    have hi : i.ReferenceDate.Time = t := h i (List.mem_cons_self _ _)
    have hr : ∀ j ∈ rest, j.ReferenceDate.Time = t := fun j hj => h j (List.mem_cons_of_mem _ hj)
    rw [List.cons_append, printRates_step _ _ _ _ _ hi, ih _ hr, ← rateLine_eq]
    simp

theorem printRates_stdout (t : Time) (m : Bool) (rates : List CurrencyRate) (w : World) :
    (printRates t m rates w).1.stdout = w.stdout ∧ (printRates t m rates w).1.stdin = w.stdin := by
  induction rates generalizing w with
  | nil => simp [printRates]
  | cons i rest ih =>
    unfold printRates
    split_ifs
    · simp
    · rw [(ih _).1, (ih _).2]; simp [println]
    · rw [(ih _).1, (ih _).2]; simp [println]


/-! ## Decoded dates are midnights -/

theorem timeParse_midnight {name : GoString} {layout : Layout} {s : GoString} {t : Time}
    (h : timeParse name layout s = Except.ok t) : isMidnight t := by
  unfold timeParse at h
  cases hp : parseLoop layout s ⟨0, -1, -1⟩ with
  | none => simp [hp] at h
  | some f =>
    simp only [hp] at h
    split_ifs at h
    all_goals
      simp only [Except.ok.injEq] at h
      subst h
      exact ⟨rfl, rfl, rfl, rfl⟩

theorem Time.zero_midnight : isMidnight Time.zero := ⟨rfl, rfl, rfl, rfl⟩

theorem eq_of_sameDay {a b : Time} (ha : isMidnight a) (hb : isMidnight b) (h : sameDay a b) :
    a = b := by
  obtain ⟨h1, h2, h3, h4⟩ := ha
  obtain ⟨k1, k2, k3, k4⟩ := hb
  obtain ⟨e1, e2, e3⟩ := h
  cases a
  cases b
  simp_all

theorem sameDay_of_eq {a b : Time} (h : a = b) : sameDay a b := by
  subst h
  exact ⟨rfl, rfl, rfl⟩

theorem UnmarshalJSON_eq (d : CurrencyDate) (v : JSON) :
    CurrencyDate.UnmarshalJSON d v =
      match v with
      | JSON.string s =>
        match timeParse (str "2006-01-02") layoutYMD s with
        | Except.error err => Except.error err
        | Except.ok t => Except.ok ⟨t, s⟩
      | JSON.null =>
        match timeParse (str "2006-01-02") layoutYMD d.RawValue with
        | Except.error err => Except.error err
        | Except.ok t => Except.ok ⟨t, d.RawValue⟩
      | _ => Except.error Error.UnmarshalTypeError := by
  cases v <;> rfl

theorem UnmarshalJSON_midnight {d d' : CurrencyDate} {v : JSON}
    (h : CurrencyDate.UnmarshalJSON d v = Except.ok d') : isMidnight d'.Time := by
  rw [UnmarshalJSON_eq] at h
  cases v with
  | string s =>
    simp only at h
    cases ht : timeParse (str "2006-01-02") layoutYMD s with
    | error e => simp [ht] at h
    | ok t =>
      simp only [ht, Except.ok.injEq] at h
      subst h
      exact timeParse_midnight ht
  | null =>
    simp only at h
    cases ht : timeParse (str "2006-01-02") layoutYMD d.RawValue with
    | error e => simp [ht] at h
    | ok t =>
      simp only [ht, Except.ok.injEq] at h
      subst h
      exact timeParse_midnight ht
  | bool b => simp at h
  | number n => simp at h
  | array a => simp at h
  | object o => simp at h

theorem decodeRateMembers_midnight (ms : List (GoString × JSON)) (r r' : CurrencyRate)
    (hr : isMidnight r.ReferenceDate.Time) (h : decodeRateMembers ms r = Except.ok r') :
    isMidnight r'.ReferenceDate.Time := by
  induction ms generalizing r with
  | nil =>
    simp only [decodeRateMembers, Except.ok.injEq] at h
    subst h
    exact hr
  | cons kv rest ih =>
    obtain ⟨key, v⟩ := kv
    cases hf : findField rateFields key with
    | none =>
      simp only [decodeRateMembers, hf] at h
      exact ih _ hr h
    | some n =>
      rcases n with _ | _ | _ | n
      · simp only [decodeRateMembers, hf] at h
        cases hd : decodeString r.IsoCode v with
        | error e => simp [hd] at h
        | ok x =>
          simp only [hd] at h
          refine ih _ ?_ h
          exact hr
      · simp only [decodeRateMembers, hf] at h
        cases hd : decodeString r.AvgRate v with
        | error e => simp [hd] at h
        | ok x =>
          simp only [hd] at h
          refine ih _ ?_ h
          exact hr
      · simp only [decodeRateMembers, hf] at h
        cases hd : r.ReferenceDate.UnmarshalJSON v with
        | error e => simp [hd] at h
        | ok x =>
          simp only [hd] at h
          exact ih _ (UnmarshalJSON_midnight hd) h
      · simp only [decodeRateMembers, hf] at h
        exact ih _ hr h

theorem decodeRate_midnight (cur r' : CurrencyRate) (v : JSON)
    (hr : isMidnight cur.ReferenceDate.Time) (h : decodeRate cur v = Except.ok r') :
    isMidnight r'.ReferenceDate.Time := by
  unfold decodeRate at h
  split at h
  · exact decodeRateMembers_midnight _ _ _ hr h
  · simp only [Except.ok.injEq] at h
    subst h
    exact hr
  · exact absurd h (by simp)

theorem decodeElems_midnight (vs : List JSON) (backing rs : List CurrencyRate)
    (hb : ∀ r ∈ backing, isMidnight r.ReferenceDate.Time)
    (h : decodeElems vs backing = Except.ok rs) : ∀ r ∈ rs, isMidnight r.ReferenceDate.Time := by
  induction vs generalizing backing rs with
  | nil =>
    simp only [decodeElems, Except.ok.injEq] at h
    subst h
    simp
  | cons v vs ih =>
    unfold decodeElems at h
    split at h
    · exact absurd h (by simp)
    · rename_i r hr
      split at h
      · exact absurd h (by simp)
      · rename_i rs' hrs
        simp only [Except.ok.injEq] at h
        subst h
        have hhead : isMidnight (backing.headD CurrencyRate.zero).ReferenceDate.Time := by
          cases backing with
          | nil => exact Time.zero_midnight
          | cons b bs => exact hb b (List.mem_cons_self _ _)
        have htail : ∀ r ∈ backing.tail, isMidnight r.ReferenceDate.Time :=
          fun r hr => hb r (List.mem_of_mem_tail hr)
        intro x hx
        rcases List.mem_cons.1 hx with rfl | hx
        · exact decodeRate_midnight _ _ _ hhead hr
        · exact ih _ _ htail hrs x hx

theorem decodeRates_midnight (cur cur' : RatesSlice) (v : JSON) (hc : cur.Midnight)
    (h : decodeRates cur v = Except.ok cur') : cur'.Midnight := by
  have hall : ∀ r ∈ cur.elems ++ cur.spare, isMidnight r.ReferenceDate.Time := by
    intro r hr
    rcases List.mem_append.1 hr with hr | hr
    · exact hc.1 r hr
    · exact hc.2 r hr
  unfold decodeRates at h
  split at h
  · simp only [Except.ok.injEq] at h
    subst h
    exact ⟨by simp, by simp⟩
  · split at h
    · exact absurd h (by simp)
    · rename_i rs hrs
      simp only [Except.ok.injEq] at h
      subst h
      exact ⟨decodeElems_midnight _ _ _ hall hrs, fun r hr => hall r (List.mem_of_mem_drop hr)⟩
  · simp only [Except.ok.injEq] at h
    subst h
    exact ⟨by simp, by simp⟩
  · exact absurd h (by simp)

theorem decodeDailyMembers_midnight (ms : List (GoString × JSON)) (cur cur' : RatesSlice)
    (hc : cur.Midnight) (h : decodeDailyMembers ms cur = Except.ok cur') : cur'.Midnight := by
  induction ms generalizing cur with
  | nil =>
    simp only [decodeDailyMembers, Except.ok.injEq] at h
    subst h
    exact hc
  | cons kv rest ih =>
    obtain ⟨key, v⟩ := kv
    unfold decodeDailyMembers at h
    split at h
    · split at h
      · exact absurd h (by simp)
      · rename_i x hx
        exact ih _ (decodeRates_midnight _ _ _ hc hx) h
    · exact ih _ hc h

theorem Unmarshal_midnight {data : GoString} {rates : DailyRates}
    (h : Unmarshal data = Except.ok rates) : ∀ r ∈ rates.Rates, isMidnight r.ReferenceDate.Time := by
  unfold Unmarshal at h
  split at h
  · exact absurd h (by simp)
  · split at h
    · exact absurd h (by simp)
    · rename_i x hx
      simp only [Except.ok.injEq] at h
      subst h
      exact (decodeDailyMembers_midnight _ _ _ ⟨by simp, by simp⟩ hx).1
  · simp only [Except.ok.injEq] at h
    subst h
    simp
  · exact absurd h (by simp)

theorem GetDailyRates_midnight {client : Client} {date : Time} {currency baseCurrency : GoString}
    {rates : DailyRates} (h : GetDailyRates client date currency baseCurrency = Outcome.ok rates) :
    ∀ r ∈ rates.Rates, isMidnight r.ReferenceDate.Time := by
  unfold GetDailyRates at h
  split at h
  · exact absurd h (by simp)
  · split at h
    · exact absurd h (by simp)
    · split_ifs at h
      split at h
      · exact absurd h (by simp)
      · rename_i r hr
        simp only [Outcome.ok.injEq] at h
        subst h
        exact Unmarshal_midnight hr

theorem readDateLine_ok {r rest : GoString} {t : Time} (h : readDateLine r = (Except.ok t, rest)) :
    ∃ text, timeParse (str "02/01/2006") layoutDMY (TrimSpace text) = Except.ok t ∧
      rest = (ReadLine r).2.2.2 := by
  unfold readDateLine at h
  split at h
  · simp at h
  · rename_i text b rest' hrl
    split at h
    · simp at h
    · rename_i t' ht
      simp only [Prod.mk.injEq, Except.ok.injEq] at h
      obtain ⟨rfl, rfl⟩ := h
      exact ⟨text, ht, by rw [hrl]⟩

theorem readDateLine_midnight {r rest : GoString} {t : Time}
    (h : readDateLine r = (Except.ok t, rest)) : isMidnight t := by
  obtain ⟨text, ht, -⟩ := readDateLine_ok h
  exact timeParse_midnight ht


/-! ## One pass of the loop of main -/

theorem mainStep_fetched (client : Client) (flags : CmdFlags) (w : World) (t : Time) (rest : GoString)
    (rates : DailyRates) (h1 : readDateLine w.stdin = (Except.ok t, rest))
    (h2 : GetDailyRates client t flags.Currency flags.BaseCurrency = Outcome.ok rates) :
    mainStep client flags w =
      ((printRates t (decide (rates.Rates.length > 1)) rates.Rates
        ⟨rest, w.stdout, w.stderr, w.trace ++ [Event.read (w.stdin.take (w.stdin.length - rest.length)),
          Event.fetch (newRequest t flags.Currency flags.BaseCurrency)]⟩).1,
       (printRates t (decide (rates.Rates.length > 1)) rates.Rates
        ⟨rest, w.stdout, w.stderr, w.trace ++ [Event.read (w.stdin.take (w.stdin.length - rest.length)),
          Event.fetch (newRequest t flags.Currency flags.BaseCurrency)]⟩).2.elim
          Exit.running Exit.panicked) := by
  simp only [mainStep, h1, h2, List.append_assoc, List.singleton_append]
  generalize printRates t (decide (rates.Rates.length > 1)) rates.Rates _ = p
  rcases p with ⟨w3, _ | err⟩ <;> rfl

/-- Claim C1: when the entries of the decoded response all carry the requested
date, the pass of the loop of `main` for that date prints one line for each entry,
in the order of the response: the `avgRate` and a newline when there is exactly one
entry, the `isoCode`, a blank, the `avgRate` and a newline when there are more;
with no entry it prints nothing and raises no error. -/
theorem main_prints_one_line_per_entry (client : Client) (flags : CmdFlags) (w : World) (t : Time)
    (rest : GoString) (rates : DailyRates) (h1 : readDateLine w.stdin = (Except.ok t, rest))
    (h2 : GetDailyRates client t flags.Currency flags.BaseCurrency = Outcome.ok rates)
    (h3 : ∀ i ∈ rates.Rates, i.ReferenceDate.Time = t) :
    mainStep client flags w =
        (⟨rest, w.stdout,
          w.stderr ++ (rates.Rates.map (rateLine rates.Rates.length)).flatten,
          w.trace ++ [Event.read (w.stdin.take (w.stdin.length - rest.length)),
            Event.fetch (newRequest t flags.Currency flags.BaseCurrency)] ++
            rates.Rates.map (fun i => Event.print (rateLine rates.Rates.length i))⟩, Exit.running) ∧
      (∀ i, rates.Rates = [i] → rates.Rates.map (rateLine rates.Rates.length) = [i.AvgRate ++ [10]]) ∧
      (rates.Rates.length > 1 →
        rates.Rates.map (rateLine rates.Rates.length) =
          rates.Rates.map (fun i => i.IsoCode ++ [32] ++ i.AvgRate ++ [10])) ∧
      (rates.Rates = [] → rates.Rates.map (rateLine rates.Rates.length) = []) := by
  refine ⟨?_, ?_, ?_, ?_⟩
  · rw [mainStep_fetched client flags w t rest rates h1 h2, printRates_all_match t _ _ _ h3]
    rfl
  · intro i hi
    rw [hi]
    simp [rateLine]
  · intro hn
    apply List.map_congr_left
    intro i _
    simp [rateLine, hn]
  · intro hn
    rw [hn]
    rfl

set_option maxRecDepth 100000 in
theorem main_prints_one_line_per_entry_witness :
    mainStep (constClient 200 twoRatesBody) ⟨[], str "EUR"⟩ (World.start (str "15/01/2024\n")) =
      (⟨[], [], str "EUR 0.92\nUSD 1.00\n",
        [Event.read (str "15/01/2024\n"), Event.fetch (newRequest ⟨2024, 1, 15, 0, 0, 0, 0⟩ (str "EUR") []),
          Event.print (str "EUR 0.92\n"), Event.print (str "USD 1.00\n")]⟩, Exit.running) :=
  (main_prints_one_line_per_entry (constClient 200 twoRatesBody) ⟨[], str "EUR"⟩
    (World.start (str "15/01/2024\n")) ⟨2024, 1, 15, 0, 0, 0, 0⟩ [] ⟨[eurRate, usdRate]⟩
    (by decide) (by decide) (by decide)).1

theorem String_midnight (t : Time) (h : isMidnight t) :
    t.String = t.Format ++ str " 00:00:00 +0000 UTC" := by
  obtain ⟨h1, h2, h3, h4⟩ := h
  have e : appendInt 0 2 = str "00" := by decide
  have f : formatNano 0 = [] := by decide
  have g : str " " ++ str "00" ++ str ":" ++ str "00" ++ str ":" ++ str "00" ++ [] ++ str " +0000 UTC" =
      str " 00:00:00 +0000 UTC" := by decide
  rw [← g]
  simp only [Time.String, h1, h2, h3, h4, e, f, List.append_assoc]

theorem first_mismatch (t : Time) (rates : List CurrencyRate)
    (h : ∃ i ∈ rates, ¬ sameDay i.ReferenceDate.Time t) :
    ∃ pre bad post, rates = pre ++ bad :: post ∧ (∀ i ∈ pre, sameDay i.ReferenceDate.Time t) ∧
      ¬ sameDay bad.ReferenceDate.Time t := by
  induction rates with
  | nil => simp at h
  | cons a rest ih =>
    by_cases ha : sameDay a.ReferenceDate.Time t
    · obtain ⟨i, hi, hn⟩ := h
      have : ∃ i ∈ rest, ¬ sameDay i.ReferenceDate.Time t := by
        rcases List.mem_cons.1 hi with rfl | hi
        · exact absurd ha hn
        · exact ⟨i, hi, hn⟩
      obtain ⟨pre, bad, post, e, hp, hb⟩ := ih this
      refine ⟨a :: pre, bad, post, by rw [e]; rfl, ?_, hb⟩
      intro i hi
      rcases List.mem_cons.1 hi with rfl | hi
      · exact ha
      · exact hp i hi
    · exact ⟨[], a, rest, rfl, by simp, ha⟩

/-- Claim C2: when the decoded response has an entry whose `referenceDate` differs
from the requested date in year, month or day, the pass of the loop of `main` ends
in a panic whose message names the requested date, after the lines of the entries
before the first such entry and of no other entry; an entry with the year, month
and day of the requested date does not raise this error. -/
theorem main_panics_on_first_mismatch (client : Client) (flags : CmdFlags) (w : World) (t : Time)
    (rest : GoString) (rates : DailyRates) (h1 : readDateLine w.stdin = (Except.ok t, rest))
    (h2 : GetDailyRates client t flags.Currency flags.BaseCurrency = Outcome.ok rates) :
    ((∃ i ∈ rates.Rates, ¬ sameDay i.ReferenceDate.Time t) →
        ∃ pre bad post, rates.Rates = pre ++ bad :: post ∧
          (∀ i ∈ pre, sameDay i.ReferenceDate.Time t) ∧ ¬ sameDay bad.ReferenceDate.Time t ∧
          mainStep client flags w =
            (⟨rest, w.stdout, w.stderr ++ (pre.map (rateLine rates.Rates.length)).flatten,
              w.trace ++ [Event.read (w.stdin.take (w.stdin.length - rest.length)),
                Event.fetch (newRequest t flags.Currency flags.BaseCurrency)] ++
                pre.map (fun i => Event.print (rateLine rates.Rates.length i))⟩,
              Exit.panicked (Error.errorString
                (str "unexpected rate date: " ++ t.Format ++ str " 00:00:00 +0000 UTC")))) ∧
      ((∀ i ∈ rates.Rates, sameDay i.ReferenceDate.Time t) →
        (mainStep client flags w).2 = Exit.running) ∧
      (∀ i ∈ rates.Rates, sameDay i.ReferenceDate.Time t → ¬ (i.ReferenceDate.Time ≠ t)) := by
  have ht : isMidnight t := readDateLine_midnight h1
  have hr := GetDailyRates_midnight h2
  refine ⟨?_, ?_, ?_⟩
  · intro hex
    obtain ⟨pre, bad, post, e, hp, hb⟩ := first_mismatch t rates.Rates hex
    refine ⟨pre, bad, post, e, hp, hb, ?_⟩
    have hp' : ∀ i ∈ pre, i.ReferenceDate.Time = t := by
      intro i hi
      exact eq_of_sameDay (hr i (by rw [e]; simp [hi])) ht (hp i hi)
    have hb' : bad.ReferenceDate.Time ≠ t := fun hbt => hb (sameDay_of_eq hbt)
    rw [mainStep_fetched client flags w t rest rates h1 h2]
    have := printRates_mismatch t rates.Rates.length pre bad post
      ⟨rest, w.stdout, w.stderr, w.trace ++ [Event.read (w.stdin.take (w.stdin.length - rest.length)),
          Event.fetch (newRequest t flags.Currency flags.BaseCurrency)]⟩ hp' hb'
    rw [← e] at this
    rw [this, unexpectedRateDate, String_midnight t ht]
    rfl
  · intro hall
    have h3 : ∀ i ∈ rates.Rates, i.ReferenceDate.Time = t :=
      fun i hi => eq_of_sameDay (hr i hi) ht (hall i hi)
    rw [mainStep_fetched client flags w t rest rates h1 h2, printRates_all_match t _ _ _ h3]
    rfl
  · intro i hi hs hne
    exact hne (eq_of_sameDay (hr i hi) ht hs)

set_option maxRecDepth 100000 in
theorem main_panics_on_first_mismatch_witness :
    ∃ pre bad post, [eurRate, staleRate] = pre ++ bad :: post ∧
      (∀ i ∈ pre, sameDay i.ReferenceDate.Time ⟨2024, 1, 15, 0, 0, 0, 0⟩) ∧
      ¬ sameDay bad.ReferenceDate.Time ⟨2024, 1, 15, 0, 0, 0, 0⟩ ∧
      mainStep (constClient 200 staleRateBody) ⟨[], str "EUR"⟩ (World.start (str "15/01/2024\n")) =
        (⟨[], (World.start (str "15/01/2024\n")).stdout,
          (World.start (str "15/01/2024\n")).stderr ++ (pre.map (rateLine 2)).flatten,
          (World.start (str "15/01/2024\n")).trace ++
            [Event.read ((str "15/01/2024\n").take ((str "15/01/2024\n").length - ([] : GoString).length)),
              Event.fetch (newRequest ⟨2024, 1, 15, 0, 0, 0, 0⟩ (str "EUR") [])] ++
            pre.map (fun i => Event.print (rateLine 2 i))⟩,
          Exit.panicked (Error.errorString
            (str "unexpected rate date: " ++ (⟨2024, 1, 15, 0, 0, 0, 0⟩ : Time).Format ++
              str " 00:00:00 +0000 UTC"))) :=
  (main_panics_on_first_mismatch (constClient 200 staleRateBody) ⟨[], str "EUR"⟩
    (World.start (str "15/01/2024\n")) ⟨2024, 1, 15, 0, 0, 0, 0⟩ [] ⟨[eurRate, staleRate]⟩
    (by decide) (by decide)).1 ⟨staleRate, by decide, by decide⟩


/-! ## The streams -/

theorem mainStep_stdout (client : Client) (flags : CmdFlags) (w : World) :
    (mainStep client flags w).1.stdout = w.stdout := by
  rcases hr : readDateLine w.stdin with ⟨r, rest⟩
  rcases r with e | t
  · cases e <;> simp only [mainStep, hr]
  · cases hg : GetDailyRates client t flags.Currency flags.BaseCurrency with
    | error e => simp only [mainStep, hr, hg]
    | panic e => simp only [mainStep, hr, hg]
    | ok rates =>
      rw [mainStep_fetched client flags w t rest rates hr hg]
      exact (printRates_stdout _ _ _ _).1

theorem mainLoop_succ (client : Client) (flags : CmdFlags) (n : Nat) (w : World) :
    mainLoop client flags (n + 1) w =
      if (mainStep client flags w).2 = Exit.running then
        mainLoop client flags n (mainStep client flags w).1
      else mainStep client flags w := by
  rcases hm : mainStep client flags w with ⟨w1, e⟩
  cases e <;> simp [mainLoop, hm]

theorem mainLoop_stdout (client : Client) (flags : CmdFlags) (fuel : Nat) (w : World) :
    (mainLoop client flags fuel w).1.stdout = w.stdout := by
  induction fuel generalizing w with
  | zero => rfl
  | succ n ih =>
    rw [mainLoop_succ]
    split_ifs
    · rw [ih, mainStep_stdout]
    · exact mainStep_stdout client flags w

/-- Claim C8, amended: the line that the loop of `main` prints for a validated
entry is written by the builtin `println`, to standard error; standard output is
left as it is, and the process writes nothing to it at all. -/
theorem rate_lines_go_to_stderr :
    (∀ args w, (println args w).stderr = w.stderr ++ (joinArgs args ++ [10]) ∧
        (println args w).stdout = w.stdout) ∧
      (∀ t n rates w, (∀ i ∈ rates, i.ReferenceDate.Time = t) →
        (printRates t (decide (n > 1)) rates w).1.stderr =
            w.stderr ++ (rates.map (rateLine n)).flatten ∧
          (printRates t (decide (n > 1)) rates w).1.stdout = w.stdout) ∧
      ∀ client flags stdin, (main client flags stdin).1.stdout = [] := by
  refine ⟨fun args w => ⟨rfl, rfl⟩, ?_, ?_⟩
  · intro t n rates w h
    rw [printRates_all_match t n rates w h]
    exact ⟨rfl, rfl⟩
  · intro client flags stdin
    exact mainLoop_stdout client flags _ _

theorem rate_lines_go_to_stderr_witness :
    (printRates ⟨2024, 1, 15, 0, 0, 0, 0⟩ (decide (2 > 1)) [eurRate, usdRate] (World.start [])).1.stderr =
        (World.start []).stderr ++ ([eurRate, usdRate].map (rateLine 2)).flatten ∧
      (printRates ⟨2024, 1, 15, 0, 0, 0, 0⟩ (decide (2 > 1)) [eurRate, usdRate] (World.start [])).1.stdout =
        (World.start []).stdout :=
  rate_lines_go_to_stderr.2.1 ⟨2024, 1, 15, 0, 0, 0, 0⟩ 2 [eurRate, usdRate] (World.start []) (by decide)

set_option maxRecDepth 100000 in
/-- Claim C8 as stated fails: for one date with one entry the line `0.92` is on
standard error and standard output is empty. -/
theorem rate_line_not_on_stdout :
    (main (constClient 200 oneRateBody) ⟨[], str "EUR"⟩ (str "15/01/2024\n")).2 = Exit.returned ∧
      (main (constClient 200 oneRateBody) ⟨[], str "EUR"⟩ (str "15/01/2024\n")).1.stdout = [] ∧
      (main (constClient 200 oneRateBody) ⟨[], str "EUR"⟩ (str "15/01/2024\n")).1.stderr =
        str "0.92\n" := by
  decide


/-! ## Decoding the entries of a body -/

theorem findField_isoCode : findField rateFields (str "isoCode") = some 0 := by decide
theorem findField_avgRate : findField rateFields (str "avgRate") = some 1 := by decide
theorem findField_referenceDate : findField rateFields (str "referenceDate") = some 2 := by decide
theorem findField_rates : findField [str "Rates"] (str "rates") = some 0 := by decide

theorem findField_lt (names : List GoString) (key : GoString) (n : Nat)
    (h : findField names key = some n) : n < names.length := by
  unfold findField at h
  split_ifs at h with h1 h2
  · simp only [Option.some.injEq] at h
    omega
  · simp only [Option.some.injEq] at h
    omega

/-- The fields after decoding the members of an entry whose members agree with
the strings iso, avg and ref. -/
theorem decodeRateMembers_agree (fs : List (GoString × JSON)) (r : CurrencyRate)
    (iso avg ref : GoString) (t : Time)
    (ht : timeParse (str "2006-01-02") layoutYMD ref = Except.ok t)
    (h : ∀ kv ∈ fs, (findField rateFields kv.1 = some 0 → kv.2 = JSON.string iso) ∧
      (findField rateFields kv.1 = some 1 → kv.2 = JSON.string avg) ∧
      (findField rateFields kv.1 = some 2 → kv.2 = JSON.string ref)) :
    decodeRateMembers fs r = Except.ok
      ⟨if fs.any (fun kv => findField rateFields kv.1 == some 0) = true then iso else r.IsoCode,
        if fs.any (fun kv => findField rateFields kv.1 == some 1) = true then avg else r.AvgRate,
        if fs.any (fun kv => findField rateFields kv.1 == some 2) = true then ⟨t, ref⟩
        else r.ReferenceDate⟩ := by
  induction fs generalizing r with
  | nil => simp [decodeRateMembers]
  | cons kv rest ih =>
    obtain ⟨key, v⟩ := kv
    have hkv := h (key, v) (List.mem_cons_self _ _)
    have hrest : ∀ kv ∈ rest, (findField rateFields kv.1 = some 0 → kv.2 = JSON.string iso) ∧
        (findField rateFields kv.1 = some 1 → kv.2 = JSON.string avg) ∧
        (findField rateFields kv.1 = some 2 → kv.2 = JSON.string ref) :=
      fun kv hk => h kv (List.mem_cons_of_mem _ hk)
    have b0 : ((none : Option Nat) == some 0) = false := by decide
    have b1 : ((none : Option Nat) == some 1) = false := by decide
    have b2 : ((none : Option Nat) == some 2) = false := by decide
    have c00 : ((some 0 : Option Nat) == some 0) = true := by decide
    have c01 : ((some 0 : Option Nat) == some 1) = false := by decide
    have c02 : ((some 0 : Option Nat) == some 2) = false := by decide
    have c10 : ((some 1 : Option Nat) == some 0) = false := by decide
    have c11 : ((some 1 : Option Nat) == some 1) = true := by decide
    have c12 : ((some 1 : Option Nat) == some 2) = false := by decide
    have c20 : ((some 2 : Option Nat) == some 0) = false := by decide
    have c21 : ((some 2 : Option Nat) == some 1) = false := by decide
    have c22 : ((some 2 : Option Nat) == some 2) = true := by decide
    cases hf : findField rateFields key with
    | none =>
      simp only [decodeRateMembers, hf, ih r hrest, List.any_cons, b0, b1, b2, Bool.false_or]
    | some n =>
      have hn := findField_lt _ _ _ hf
      have hlen : rateFields.length = 3 := rfl
      rw [hlen] at hn
      rcases n with _ | _ | _ | n
      · have hv : v = JSON.string iso := hkv.1 hf
        subst hv
        simp only [decodeRateMembers, hf, decodeString, ih _ hrest, List.any_cons, c00, c01, c02,
          Bool.false_or, Bool.true_or, if_true, ite_self]
      · have hv : v = JSON.string avg := hkv.2.1 hf
        subst hv
        simp only [decodeRateMembers, hf, decodeString, ih _ hrest, List.any_cons, c10, c11, c12,
          Bool.false_or, Bool.true_or, if_true, ite_self]
      · have hv : v = JSON.string ref := hkv.2.2 hf
        subst hv
        simp only [decodeRateMembers, hf, UnmarshalJSON_eq, ht, ih _ hrest, List.any_cons, c20, c21,
          c22, Bool.false_or, Bool.true_or, if_true, ite_self]
      · omega

theorem decodeRate_of_Decodes (cur : CurrencyRate) (e : JSON) (r : CurrencyRate)
    (h : Decodes e r) : decodeRate cur e = Except.ok r := by
  obtain ⟨iso, avg, ref, y, m, d, ⟨fs, rfl, h0, h1, h2, hall⟩, hs, hd1, hd2, rfl⟩ := h
  have ht := timeParse_YMD_of_shape hs hd1 hd2
  have e0 : fs.any (fun kv => findField rateFields kv.1 == some 0) = true :=
    List.any_eq_true.2 ⟨_, h0, by simp [findField_isoCode]⟩
  have e1 : fs.any (fun kv => findField rateFields kv.1 == some 1) = true :=
    List.any_eq_true.2 ⟨_, h1, by simp [findField_avgRate]⟩
  have e2 : fs.any (fun kv => findField rateFields kv.1 == some 2) = true :=
    List.any_eq_true.2 ⟨_, h2, by simp [findField_referenceDate]⟩
  rw [decodeRate, decodeRateMembers_agree fs cur iso avg ref _ ht hall, if_pos e0, if_pos e1,
    if_pos e2]

theorem decodeElems_of_Decodes (es : List JSON) (backing : List CurrencyRate)
    (h : ∀ e ∈ es, ∃ r, Decodes e r) :
    ∃ rs, decodeElems es backing = Except.ok rs ∧ List.Forall₂ Decodes es rs := by
  induction es generalizing backing with
  | nil => exact ⟨[], rfl, List.Forall₂.nil⟩
  | cons e es ih =>
    obtain ⟨r, hr⟩ := h e (List.mem_cons_self _ _)
    obtain ⟨rs, hrs, hf⟩ := ih backing.tail (fun e he => h e (List.mem_cons_of_mem _ he))
    refine ⟨r :: rs, ?_, List.Forall₂.cons hr hf⟩
    simp only [decodeElems, decodeRate_of_Decodes _ e r hr, hrs]

theorem decodeDailyMembers_skip (ms : List (GoString × JSON)) (cur : RatesSlice)
    (h : ∀ kv ∈ ms, findField [str "Rates"] kv.1 = none) :
    decodeDailyMembers ms cur = Except.ok cur := by
  induction ms with
  | nil => rfl
  | cons kv rest ih =>
    obtain ⟨key, v⟩ := kv
    have hk : findField [str "Rates"] key = none := h (key, v) (List.mem_cons_self _ _)
    simp only [decodeDailyMembers, hk, ih (fun kv hkv => h kv (List.mem_cons_of_mem _ hkv))]

theorem decodeDailyMembers_append (pre post : List (GoString × JSON)) (cur : RatesSlice)
    (h : ∀ kv ∈ pre, findField [str "Rates"] kv.1 = none) :
    decodeDailyMembers (pre ++ post) cur = decodeDailyMembers post cur := by
  induction pre with
  | nil => rfl
  | cons kv rest ih =>
    obtain ⟨key, v⟩ := kv
    have hk : findField [str "Rates"] key = none := h (key, v) (List.mem_cons_self _ _)
    rw [List.cons_append, decodeDailyMembers]
    simp only [hk]
    exact ih (fun kv hkv => h kv (List.mem_cons_of_mem _ hkv))

theorem decodeRates_of_Decodes (es : List JSON) (cur : RatesSlice)
    (h : ∀ e ∈ es, ∃ r, Decodes e r) :
    ∃ x, decodeRates cur (JSON.array es) = Except.ok x ∧ List.Forall₂ Decodes es x.elems := by
  cases es with
  | nil => exact ⟨⟨[], []⟩, rfl, List.Forall₂.nil⟩
  | cons e es =>
    obtain ⟨rs, hrs, hf⟩ := decodeElems_of_Decodes (e :: es) (cur.elems ++ cur.spare) h
    exact ⟨⟨rs, (cur.elems ++ cur.spare).drop rs.length⟩, by simp only [decodeRates, hrs], hf⟩

theorem Unmarshal_of_Decodes (body : GoString) (pre post : List (GoString × JSON))
    (es : List JSON)
    (hb : scanJSON body = some (JSON.object (pre ++ (str "rates", JSON.array es) :: post)))
    (hpre : ∀ kv ∈ pre, findField [str "Rates"] kv.1 = none)
    (hpost : ∀ kv ∈ post, findField [str "Rates"] kv.1 = none)
    (h : ∀ e ∈ es, ∃ r, Decodes e r) :
    ∃ rates, Unmarshal body = Except.ok rates ∧ List.Forall₂ Decodes es rates.Rates := by
  obtain ⟨x, hx, hf⟩ := decodeRates_of_Decodes es ⟨[], []⟩ h
  refine ⟨⟨x.elems⟩, ?_, hf⟩
  simp only [Unmarshal, hb, decodeDailyMembers_append _ _ _ hpre, decodeDailyMembers, findField_rates,
    hx, decodeDailyMembers_skip _ _ hpost]

/-- Claim C4, amended: for a response with a status from 200 to 299 whose body is
a JSON object with one member `rates`, an array, and no other member whose name is
equal to `Rates` under case folding, where each element is an object whose members
`isoCode`, `avgRate` and `referenceDate` are strings, the last one a calendar date
in the form `YYYY-MM-DD`, and whose members of a name equal to one of these under
case folding hold the same strings, `GetDailyRates` returns a `DailyRates` whose
`Rates` has the length and the order of the array, entry i with the strings of the
i-th element and the date its `referenceDate` writes. -/
theorem GetDailyRates_decodes_entries (client : Client) (date : Time)
    (currency baseCurrency : GoString) (res : Response) (body : GoString)
    (pre post : List (GoString × JSON)) (es : List JSON)
    (h1 : client (newRequest date currency baseCurrency) = Except.ok res)
    (h2 : 200 ≤ res.StatusCode ∧ res.StatusCode ≤ 299) (h3 : res.Body = Except.ok body)
    (hb : scanJSON body = some (JSON.object (pre ++ (str "rates", JSON.array es) :: post)))
    (hpre : ∀ kv ∈ pre, findField [str "Rates"] kv.1 = none)
    (hpost : ∀ kv ∈ post, findField [str "Rates"] kv.1 = none)
    (h : ∀ e ∈ es, ∃ r, Decodes e r) :
    ∃ rates, GetDailyRates client date currency baseCurrency = Outcome.ok rates ∧
      rates.Rates.length = es.length ∧ List.Forall₂ Decodes es rates.Rates := by
  obtain ⟨rates, hu, hf⟩ := Unmarshal_of_Decodes body pre post es hb hpre hpost h
  have h400 : res.StatusCode ≠ 400 := by omega
  refine ⟨rates, ?_, hf.length_eq.symm, hf⟩
  rw [GetDailyRates_of_body client date currency baseCurrency res body h1 h400 h3, hu]

/-- An object with exactly the three members of an entry is an entry. -/
theorem entryOK_canonical (iso avg ref : GoString) :
    EntryOK (JSON.object [(str "isoCode", JSON.string iso), (str "avgRate", JSON.string avg),
      (str "referenceDate", JSON.string ref)]) iso avg ref := by
  have f01 : findField rateFields (str "isoCode") ≠ some 1 := by decide
  have f02 : findField rateFields (str "isoCode") ≠ some 2 := by decide
  have f10 : findField rateFields (str "avgRate") ≠ some 0 := by decide
  have f12 : findField rateFields (str "avgRate") ≠ some 2 := by decide
  have f20 : findField rateFields (str "referenceDate") ≠ some 0 := by decide
  have f21 : findField rateFields (str "referenceDate") ≠ some 1 := by decide
  refine ⟨_, rfl, by simp, by simp, by simp, ?_⟩
  intro kv hkv
  simp only [List.mem_cons, List.mem_singleton, List.not_mem_nil, or_false] at hkv
  rcases hkv with rfl | rfl | rfl
  · exact ⟨fun _ => rfl, fun h => absurd h f01, fun h => absurd h f02⟩
  · exact ⟨fun h => absurd h f10, fun _ => rfl, fun h => absurd h f12⟩
  · exact ⟨fun h => absurd h f20, fun h => absurd h f21, fun _ => rfl⟩

theorem shapeYMD_20240115 : ShapeYMD (str "2024-01-15") 2024 1 15 :=
  ⟨50, 48, 50, 52, 48, 49, 49, 53, by decide, by decide, by decide, by decide, by decide, by decide,
    by decide, by decide, by decide, by decide, by decide, by decide, by decide, by decide⟩

set_option maxRecDepth 100000 in
theorem scanJSON_twoRatesBody :
    scanJSON twoRatesBody = some (JSON.object ([] ++ (str "rates", JSON.array
      [JSON.object [(str "isoCode", JSON.string (str "EUR")), (str "avgRate", JSON.string (str "0.92")),
        (str "referenceDate", JSON.string (str "2024-01-15"))],
       JSON.object [(str "isoCode", JSON.string (str "USD")), (str "avgRate", JSON.string (str "1.00")),
        (str "referenceDate", JSON.string (str "2024-01-15"))]]) :: [])) := by
  rfl

theorem GetDailyRates_decodes_entries_witness :
    ∃ rates, GetDailyRates (constClient 200 twoRatesBody) ⟨2024, 1, 15, 0, 0, 0, 0⟩ (str "EUR") [] =
        Outcome.ok rates ∧
      rates.Rates.length = 2 ∧
      List.Forall₂ Decodes
        [JSON.object [(str "isoCode", JSON.string (str "EUR")), (str "avgRate", JSON.string (str "0.92")),
          (str "referenceDate", JSON.string (str "2024-01-15"))],
         JSON.object [(str "isoCode", JSON.string (str "USD")), (str "avgRate", JSON.string (str "1.00")),
          (str "referenceDate", JSON.string (str "2024-01-15"))]] rates.Rates :=
  GetDailyRates_decodes_entries (constClient 200 twoRatesBody) ⟨2024, 1, 15, 0, 0, 0, 0⟩ (str "EUR") []
    ⟨200, Except.ok twoRatesBody⟩ twoRatesBody [] [] _ rfl (by decide) rfl scanJSON_twoRatesBody
    (by simp) (by simp)
    (by
      intro e he
      simp only [List.mem_cons, List.mem_singleton, List.not_mem_nil, or_false] at he
      rcases he with rfl | rfl
      · exact ⟨_, _, _, _, _, _, _, entryOK_canonical _ _ _, shapeYMD_20240115, by decide, by decide, rfl⟩
      · exact ⟨_, _, _, _, _, _, _, entryOK_canonical _ _ _, shapeYMD_20240115, by decide, by decide, rfl⟩)

set_option maxRecDepth 100000 in
/-- Claim C4 as stated fails: the one entry of this body has the strings `EUR`,
`0.92` and `2024-01-15` in its members `isoCode`, `avgRate` and `referenceDate`, and
the entry that `GetDailyRates` returns has the `IsoCode` `USD` of the member
`ISOCODE`. -/
theorem folded_key_overrides_isoCode :
    (((scanJSON foldedKeyBody).bind (JSON.member (str "rates"))).bind JSON.elems).map
        (List.map (fun e => (JSON.memberString (str "isoCode") e, JSON.memberString (str "avgRate") e,
          JSON.memberString (str "referenceDate") e))) =
        some [(some (str "EUR"), some (str "0.92"), some (str "2024-01-15"))] ∧
      GetDailyRates (constClient 200 foldedKeyBody) ⟨2024, 1, 15, 0, 0, 0, 0⟩ (str "EUR") [] =
        Outcome.ok ⟨[⟨str "USD", str "0.92", ⟨⟨2024, 1, 15, 0, 0, 0, 0⟩, str "2024-01-15"⟩⟩]⟩ := by
  decide


/-! ## A carriage return at the end of a line

`ReadLine` drops a carriage return that stands right before the newline; the
lemmas below show that `TrimSpace` gives the same text with or without it. -/

theorem decodeTail_append_cr (s0 sz lo hi : Nat) (t : GoString) (hsz : 2 ≤ sz) (hsz4 : sz ≤ 4)
    (hlo : 128 ≤ lo) :
    decodeTail s0 sz lo hi (t ++ [13]) = decodeTail s0 sz lo hi t := by
  rcases t with _ | ⟨b, _ | ⟨c, _ | ⟨d, rest⟩⟩⟩
  · simp only [decodeTail, List.nil_append, List.length_cons, List.length_nil]
    split_ifs <;> first | rfl | omega
  · simp only [decodeTail, List.cons_append, List.nil_append, List.length_cons, List.length_nil]
    split_ifs <;> first | rfl | omega
  · simp only [decodeTail, List.cons_append, List.nil_append, List.length_cons, List.length_nil]
    split_ifs <;> first | rfl | omega
  · simp only [decodeTail, List.cons_append, List.length_cons, List.length_append, List.length_nil]
    split_ifs <;> first | rfl | omega

theorem decodeTail_size (s0 sz lo hi : Nat) (t : GoString) :
    1 ≤ (decodeTail s0 sz lo hi t).2 ∧ (decodeTail s0 sz lo hi t).2 ≤ t.length + 1 := by
  rcases t with _ | ⟨b, _ | ⟨c, _ | ⟨d, rest⟩⟩⟩
  · simp [decodeTail]
  · simp only [decodeTail, List.length_cons, List.length_nil]
    split_ifs <;> simp
  · simp only [decodeTail, List.length_cons, List.length_nil]
    split_ifs <;> simp
  · simp only [decodeTail, List.length_cons]
    split_ifs <;> simp

theorem DecodeRune_append_cr (s : GoString) (hs : s ≠ []) :
    DecodeRune (s ++ [13]) = DecodeRune s := by
  rcases s with _ | ⟨a, t⟩
  · exact absurd rfl hs
  · simp only [DecodeRune, List.cons_append]
    by_cases h1 : a < 0x80
    · rw [if_pos h1, if_pos h1]
    · rw [if_neg h1, if_neg h1]
      by_cases h2 : a < 0xC2 ∨ 0xF4 < a
      · rw [if_pos h2, if_pos h2]
      · rw [if_neg h2, if_neg h2]
        apply decodeTail_append_cr
        · split_ifs <;> omega
        · split_ifs <;> omega
        · split_ifs <;> omega

theorem DecodeRune_size (s : GoString) (hs : s ≠ []) :
    1 ≤ (DecodeRune s).2 ∧ (DecodeRune s).2 ≤ s.length := by
  rcases s with _ | ⟨a, t⟩
  · exact absurd rfl hs
  · simp only [DecodeRune, List.length_cons]
    by_cases h1 : a < 0x80
    · rw [if_pos h1]
      simp
    · rw [if_neg h1]
      by_cases h2 : a < 0xC2 ∨ 0xF4 < a
      · rw [if_pos h2]
        simp
      · rw [if_neg h2]
        exact decodeTail_size _ _ _ _ _

theorem trimLeftSpace_fuel (f : Nat) (s : GoString) (h : s.length ≤ f) :
    trimLeftSpace f s = trimLeftSpace s.length s := by
  induction f using Nat.strong_induction_on generalizing s with
  | _ f ih =>
    rcases s with _ | ⟨a, t⟩
    · cases f <;> rfl
    · obtain ⟨g, rfl⟩ : ∃ g, f = g + 1 := ⟨f - 1, by simp at h; omega⟩
      have hsz := DecodeRune_size (a :: t) (by simp)
      have hl : ((a :: t).drop (DecodeRune (a :: t)).2).length ≤ t.length := by
        simp only [List.length_drop, List.length_cons]
        omega
      simp only [List.length_cons] at h
      have hne : ¬ (a :: t = []) := by simp
      simp only [trimLeftSpace, List.length_cons, hne, if_false]
      by_cases hsp : IsSpace (DecodeRune (a :: t)).1 = true
      · rw [if_pos hsp, if_pos hsp, ih g (by omega) _ (by omega), ih t.length (by omega) _ hl]
      · rw [if_neg hsp, if_neg hsp]

/-- Cutting white space on the left of a text with a carriage return after it. -/
theorem trimLeftSpace_append_cr (s : GoString) :
    trimLeftSpace (s ++ [13]).length (s ++ [13]) =
      if trimLeftSpace s.length s = [] then [] else trimLeftSpace s.length s ++ [13] := by
  suffices H : ∀ n (s : GoString), s.length = n →
      trimLeftSpace (s ++ [13]).length (s ++ [13]) =
        if trimLeftSpace s.length s = [] then [] else trimLeftSpace s.length s ++ [13] from
    H s.length s rfl
  intro n
  induction n using Nat.strong_induction_on with
  | _ n ih =>
    intro s hn
    subst hn
    rcases s with _ | ⟨a, t⟩
    · decide
    · have hsz := DecodeRune_size (a :: t) (by simp)
      have hd := DecodeRune_append_cr (a :: t) (by simp)
      rw [List.cons_append] at hd
      simp only [List.cons_append, List.length_cons, List.length_append, List.length_nil,
        trimLeftSpace, hd]
      simp only [List.length_cons] at hsz
      by_cases hsp : IsSpace (DecodeRune (a :: t)).1 = true
      · simp only [hsp, if_true, reduceCtorEq, if_false]
        have hdrop : (a :: (t ++ [13])).drop (DecodeRune (a :: t)).2 =
            (a :: t).drop (DecodeRune (a :: t)).2 ++ [13] := by
          rw [← List.cons_append, List.drop_append_of_le_length (by simp; omega)]
        have hl : ((a :: t).drop (DecodeRune (a :: t)).2).length < t.length + 1 := by
          simp only [List.length_drop, List.length_cons]
          omega
        rw [hdrop]
        rw [trimLeftSpace_fuel _ ((a :: t).drop (DecodeRune (a :: t)).2 ++ [13])
          (by simp only [List.append_eq, List.length_append, List.length_drop, List.length_cons, List.length_nil]; omega)]
        rw [trimLeftSpace_fuel t.length ((a :: t).drop (DecodeRune (a :: t)).2) (by omega)]
        exact ih _ hl _ rfl
      · simp only [hsp, Bool.false_eq_true, if_false, reduceCtorEq]
        simp


theorem DecodeLastRune_append_cr (s : GoString) : DecodeLastRune (s ++ [13]) = (13, 1) := by
  have h : (s ++ [13]).getD ((s ++ [13]).length - 1) 0 = 13 := by
    simp [List.getD_eq_getElem?_getD]
  simp only [DecodeLastRune, h]
  simp

theorem trimRightSpace_append_cr (s : GoString) :
    trimRightSpace (s ++ [13]).length (s ++ [13]) = trimRightSpace s.length s := by
  have hne : ¬ (s ++ [13] = []) := by simp
  have hsp : IsSpace 13 = true := by decide
  rw [List.length_append, List.length_singleton, trimRightSpace, if_neg hne,
    DecodeLastRune_append_cr]
  simp only [hsp, if_true, List.length_append, List.length_singleton, Nat.add_sub_cancel,
    List.take_left']

theorem TrimFunc_append_cr (s : GoString) : TrimFunc (s ++ [13]) = TrimFunc s := by
  simp only [TrimFunc]
  rw [trimLeftSpace_append_cr]
  by_cases h : trimLeftSpace s.length s = []
  · rw [if_pos h, h]
  · rw [if_neg h, trimRightSpace_append_cr]

theorem dropWhile_append_cr (s : GoString) :
    (s ++ [13]).dropWhile asciiSpace =
      if s.dropWhile asciiSpace = [] then [] else s.dropWhile asciiSpace ++ [13] := by
  induction s with
  | nil => decide
  | cons a t ih =>
    by_cases ha : asciiSpace a = true
    · simp only [List.cons_append, List.dropWhile_cons, ha, if_true]
      exact ih
    · simp only [List.cons_append, List.dropWhile_cons, ha, if_false, reduceCtorEq,
        Bool.false_eq_true]

/-- A carriage return at the end of a text does not change what `TrimSpace`
returns. -/
theorem TrimSpace_append_cr (s : GoString) : TrimSpace (s ++ [13]) = TrimSpace s := by
  have h13 : asciiSpace 13 = true := by decide
  unfold TrimSpace
  rw [dropWhile_append_cr]
  rcases hs : s.dropWhile asciiSpace with _ | ⟨c, rest⟩
  · simp
  · simp only [reduceCtorEq, if_false, List.cons_append]
    by_cases hc : c ≥ 0x80
    · rw [if_pos hc, if_pos hc, ← List.cons_append, TrimFunc_append_cr]
    · rw [if_neg hc, if_neg hc]
      have hr : (c :: (rest ++ [13])).reverse.dropWhile asciiSpace =
          (c :: rest).reverse.dropWhile asciiSpace := by
        rw [← List.cons_append, List.reverse_append]
        simp only [List.reverse_cons, List.reverse_nil, List.nil_append, List.singleton_append,
          List.dropWhile_cons, h13, if_true]
      simp only [hr]

/-- The carriage return that `ReadLine` drops is white space, which `TrimSpace`
cuts in any case. -/
theorem TrimSpace_chomp (line : GoString) : TrimSpace (chomp line) = TrimSpace line := by
  unfold chomp
  by_cases h : line.getLast? = some 13
  · rw [if_pos h]
    have hl : line = line.dropLast ++ [13] := by
      rcases List.eq_nil_or_concat line with h0 | ⟨l, a, h1⟩
      · rw [h0] at h
        simp at h
      · subst h1
        simp only [List.concat_eq_append, List.getLast?_append, List.getLast?_singleton,
          Option.or, Option.some.injEq] at h
        subst h
        simp
    conv_rhs => rw [hl]
    rw [TrimSpace_append_cr]
  · rw [if_neg h]


/-! ## The loop of main -/

theorem findIdx_newline (line rest : GoString) (h : 10 ∉ line) :
    (line ++ 10 :: rest).findIdx (fun c => c == 10) = line.length := by
  induction line with
  | nil => simp [List.findIdx_cons]
  | cons a l ih =>
    have ha : a ≠ 10 := fun e => h (by simp [e])
    have hl : 10 ∉ l := fun e => h (List.mem_cons_of_mem _ e)
    have hb : (a == 10) = false := by simp [ha]
    simp [List.findIdx_cons, hb, ih hl]

theorem findIdx_no_newline (line : GoString) (h : 10 ∉ line) :
    line.findIdx (fun c => c == 10) = line.length := by
  induction line with
  | nil => rfl
  | cons a l ih =>
    have ha : a ≠ 10 := fun e => h (by simp [e])
    have hl : 10 ∉ l := fun e => h (List.mem_cons_of_mem _ e)
    have hb : (a == 10) = false := by simp [ha]
    simp [List.findIdx_cons, hb, ih hl]

theorem getD_last (line rest : GoString) (h : 1 ≤ line.length) :
    (line ++ rest).getD (line.length - 1) 0 = 13 ↔ line.getLast? = some 13 := by
  induction line with
  | nil => simp at h
  | cons a l ih =>
    cases l with
    | nil => simp
    | cons b l' =>
      have := ih (by simp)
      simp only [List.length_cons, Nat.add_sub_cancel, List.cons_append] at this ⊢
      rw [List.getD_cons_succ, List.getLast?_cons_cons]
      exact this

/-- The result of `ReadLine` on a line that a newline ends and that fits the buffer. -/
theorem ReadLine_line (line rest : GoString) (h : 10 ∉ line) (hlen : line.length < defaultBufSize) :
    ReadLine (line ++ 10 :: rest) = (chomp line, false, none, rest) := by
  have hi := findIdx_newline line rest h
  have h1 : line.length < (line ++ 10 :: rest).length := by simp
  unfold ReadLine
  simp only [hi]
  rw [if_pos ⟨h1, hlen⟩]
  have hd : List.drop (line.length + 1) (line ++ 10 :: rest) = rest := by
    have : line.length + 1 = (line ++ [10]).length := by simp
    rw [this, show line ++ 10 :: rest = (line ++ [10]) ++ rest by simp, List.drop_left]
  rw [hd]
  by_cases hc : line.getLast? = some 13
  · have hne : 1 ≤ line.length := by
      cases line with
      | nil => simp at hc
      | cons a l => simp
    have hg := (getD_last line (10 :: rest) hne).2 hc
    rw [if_pos ⟨hne, hg⟩]
    simp only [chomp, hc, if_true]
    rw [List.take_append_of_le_length (by omega), List.dropLast_eq_take]
  · have hn : ¬ (line.length ≥ 1 ∧ (line ++ 10 :: rest).getD (line.length - 1) 0 = 13) := by
      rintro ⟨hne, hg⟩
      exact hc ((getD_last line (10 :: rest) hne).1 hg)
    rw [if_neg hn]
    simp only [chomp, hc, if_false, Nat.sub_zero]
    rw [List.take_left]

/-- The result of `ReadLine` on a last line that no newline ends and that fits the buffer. -/
theorem ReadLine_last (line : GoString) (h : 10 ∉ line) (hne : line ≠ [])
    (hlen : line.length < defaultBufSize) : ReadLine line = (line, false, none, []) := by
  have hi := findIdx_no_newline line h
  have h0 : line.length ≠ 0 := by
    cases line with
    | nil => exact absurd rfl hne
    | cons a l => simp
  unfold ReadLine
  simp only [hi]
  rw [if_neg (by omega), if_neg (by omega), if_neg h0]

theorem ReadLine_nil : ReadLine [] = ([], false, some Error.EOF, []) := by decide

/-- When `ReadLine` returns no error it has consumed input. -/
theorem ReadLine_consumes (input : GoString) (h : (ReadLine input).2.2.1 = none) :
    (ReadLine input).2.2.2.length < input.length := by
  simp only [ReadLine, defaultBufSize] at h ⊢
  by_cases c1 : List.findIdx (fun c => c == 10) input < input.length ∧
      List.findIdx (fun c => c == 10) input < 4096
  · rw [if_pos c1]
    simp only [List.length_drop]
    omega
  · rw [if_neg c1] at h ⊢
    by_cases c2 : input.length ≥ 4096
    · rw [if_pos c2]
      by_cases c3 : input.getD (4096 - 1) 0 = 13
      · rw [if_pos c3]
        simp only [List.length_drop]
        omega
      · rw [if_neg c3]
        simp only [List.length_drop]
        omega
    · rw [if_neg c2] at h ⊢
      by_cases c4 : input.length = 0
      · rw [if_pos c4] at h
        simp at h
      · rw [if_neg c4]
        simp only [List.length_nil]
        omega

theorem ReadLine_EOF_iff (input : GoString) :
    (ReadLine input).2.2.1 = some Error.EOF ↔ input = [] := by
  constructor
  · intro h
    simp only [ReadLine, defaultBufSize] at h
    by_cases c1 : List.findIdx (fun c => c == 10) input < input.length ∧
        List.findIdx (fun c => c == 10) input < 4096
    · rw [if_pos c1] at h
      simp at h
    · rw [if_neg c1] at h
      by_cases c2 : input.length ≥ 4096
      · rw [if_pos c2] at h
        by_cases c3 : input.getD (4096 - 1) 0 = 13
        · rw [if_pos c3] at h
          simp at h
        · rw [if_neg c3] at h
          simp at h
      · rw [if_neg c2] at h
        by_cases c4 : input.length = 0
        · exact List.length_eq_zero.1 c4
        · rw [if_neg c4] at h
          simp at h
  · rintro rfl
    rfl


theorem readDateLine_line (line rest : GoString) (t : Time) (h : 10 ∉ line)
    (hlen : line.length < defaultBufSize)
    (ht : timeParse (str "02/01/2006") layoutDMY (TrimSpace line) = Except.ok t) :
    readDateLine (line ++ 10 :: rest) = (Except.ok t, rest) := by
  simp only [readDateLine, ReadLine_line line rest h hlen, TrimSpace_chomp, ht]

theorem readDateLine_last (line : GoString) (t : Time) (h : 10 ∉ line) (hne : line ≠ [])
    (hlen : line.length < defaultBufSize)
    (ht : timeParse (str "02/01/2006") layoutDMY (TrimSpace line) = Except.ok t) :
    readDateLine line = (Except.ok t, []) := by
  simp only [readDateLine, ReadLine_last line h hne hlen, ht]

theorem readDateLine_nil : readDateLine [] = (Except.error Error.EOF, []) := by decide

theorem ReadLine_error_nil (r text rest : GoString) (b : Bool) (e : Error)
    (hrl : ReadLine r = (text, b, some e, rest)) : r = [] := by
  simp only [ReadLine, defaultBufSize] at hrl
  by_cases c1 : List.findIdx (fun c => c == 10) r < r.length ∧
      List.findIdx (fun c => c == 10) r < 4096
  · rw [if_pos c1] at hrl
    simp at hrl
  · rw [if_neg c1] at hrl
    by_cases c2 : r.length ≥ 4096
    · rw [if_pos c2] at hrl
      by_cases c3 : r.getD (4096 - 1) 0 = 13
      · rw [if_pos c3] at hrl
        simp at hrl
      · rw [if_neg c3] at hrl
        simp at hrl
    · rw [if_neg c2] at hrl
      by_cases c4 : r.length = 0
      · exact List.length_eq_zero.1 c4
      · rw [if_neg c4] at hrl
        simp at hrl

/-- The three ways `readDateLine` ends: end of input on an empty input, a parse
error, or a date; in the last two it has consumed input. -/
theorem readDateLine_cases (r : GoString) :
    (readDateLine r = (Except.error Error.EOF, []) ∧ r = []) ∨
      (∃ v rest, readDateLine r = (Except.error (Error.ParseError (str "02/01/2006") v), rest) ∧
        rest.length < r.length) ∨
      (∃ t rest, readDateLine r = (Except.ok t, rest) ∧ rest.length < r.length) := by
  have hc := ReadLine_consumes r
  rcases hrl : ReadLine r with ⟨text, b, err, rest⟩
  rw [hrl] at hc
  simp only at hc
  cases err with
  | some e =>
    have hr : r = [] := ReadLine_error_nil r text rest b e hrl
    subst hr
    left
    exact ⟨readDateLine_nil, rfl⟩
  | none =>
    right
    have hlt := hc rfl
    rcases timeParse_error (str "02/01/2006") layoutDMY (TrimSpace text) with ⟨t, ht⟩ | hte
    · right
      exact ⟨t, rest, by simp only [readDateLine, hrl, ht], hlt⟩
    · left
      exact ⟨TrimSpace text, rest, by simp only [readDateLine, hrl, hte], hlt⟩

theorem mainStep_returned_iff (client : Client) (flags : CmdFlags) (w : World) :
    (mainStep client flags w).2 = Exit.returned ↔ w.stdin = [] := by
  rcases readDateLine_cases w.stdin with ⟨h, hr⟩ | ⟨v, rest, h, hlt⟩ | ⟨t, rest, h, hlt⟩
  · simp only [mainStep, h]
    simp [hr]
  · simp only [mainStep, h]
    constructor
    · intro hx
      exact absurd hx (by simp)
    · intro hx
      rw [hx] at hlt
      simp at hlt
  · constructor
    · intro hx
      exfalso
      cases hg : GetDailyRates client t flags.Currency flags.BaseCurrency with
      | error e => simp [mainStep, h, hg] at hx
      | panic e => simp [mainStep, h, hg] at hx
      | ok rates =>
        rw [mainStep_fetched client flags w t _ rates h hg] at hx
        simp only at hx
        generalize (printRates t (decide (rates.Rates.length > 1)) rates.Rates _).2 = o at hx
        cases o <;> simp [Option.elim] at hx
    · intro hx
      rw [hx] at hlt
      simp at hlt

theorem mainStep_running_consumes (client : Client) (flags : CmdFlags) (w : World)
    (hrun : (mainStep client flags w).2 = Exit.running) :
    (mainStep client flags w).1.stdin.length < w.stdin.length := by
  rcases readDateLine_cases w.stdin with ⟨h, hr⟩ | ⟨v, rest, h, hlt⟩ | ⟨t, rest, h, hlt⟩
  · simp [mainStep, h] at hrun
  · simp [mainStep, h] at hrun
  · cases hg : GetDailyRates client t flags.Currency flags.BaseCurrency with
    | error e => simp [mainStep, h, hg] at hrun
    | panic e => simp [mainStep, h, hg] at hrun
    | ok rates =>
      rw [mainStep_fetched client flags w t _ rates h hg]
      simp only
      rw [(printRates_stdout _ _ _ _).2]
      exact hlt

theorem mainLoop_not_running (client : Client) (flags : CmdFlags) (fuel : Nat) (w : World)
    (h : w.stdin.length < fuel) : (mainLoop client flags fuel w).2 ≠ Exit.running := by
  induction fuel generalizing w with
  | zero => omega
  | succ n ih =>
    rw [mainLoop_succ]
    split_ifs with hr
    · have := mainStep_running_consumes client flags w hr
      exact ih _ (by omega)
    · exact hr


theorem mainStep_pass (client : Client) (flags : CmdFlags) (w : World) (t : Time) (rest : GoString)
    (h1 : readDateLine w.stdin = (Except.ok t, rest))
    (hapi : ∃ rates, GetDailyRates client t flags.Currency flags.BaseCurrency = Outcome.ok rates ∧
      ∀ i ∈ rates.Rates, i.ReferenceDate.Time = t) :
    mainStep client flags w =
      (⟨rest, w.stdout, w.stderr ++ passOutput client flags t,
        w.trace ++ passTrace client flags (w.stdin.take (w.stdin.length - rest.length)) t⟩,
        Exit.running) := by
  obtain ⟨rates, hg, hall⟩ := hapi
  have hr : ratesOf client flags t = rates.Rates := by simp only [ratesOf, hg]
  rw [mainStep_fetched client flags w t rest rates h1 hg, printRates_all_match t _ _ _ hall]
  simp only [passOutput, passTrace, hr, Option.elim, List.append_assoc]

theorem fetches_append (a b : List Event) : fetches (a ++ b) = fetches a ++ fetches b := by
  induction a with
  | nil => rfl
  | cons e a ih =>
    cases e <;> simp [fetches, ih]

theorem fetches_prints (f : CurrencyRate → GoString) (rs : List CurrencyRate) :
    fetches (rs.map (fun i => Event.print (f i))) = [] := by
  induction rs with
  | nil => rfl
  | cons r rs ih => simp [fetches, ih]

theorem fetches_passTrace (client : Client) (flags : CmdFlags) (c : GoString) (t : Time) :
    fetches (passTrace client flags c t) = [newRequest t flags.Currency flags.BaseCurrency] := by
  simp [passTrace, fetches, fetches_prints]

theorem fetches_passes (client : Client) (flags : CmdFlags) (f : GoString × Time → GoString)
    (ps : List (GoString × Time)) :
    fetches ((ps.map (fun p => passTrace client flags (f p) p.2)).flatten) =
      ps.map (fun p => newRequest p.2 flags.Currency flags.BaseCurrency) := by
  induction ps with
  | nil => rfl
  | cons p ps ih => simp [fetches_append, fetches_passTrace, ih]

theorem fetches_traceOf (client : Client) (flags : CmdFlags) (lines : List (GoString × Time))
    (last : Option (GoString × Time)) :
    fetches (traceOf client flags lines last) =
      (lines ++ last.toList).map (fun p => newRequest p.2 flags.Currency flags.BaseCurrency) := by
  simp only [traceOf, fetches_append, fetches_passes client flags (fun p => p.1 ++ [10]),
    fetches_passes client flags (fun p => p.1), List.map_append]
  simp [fetches]

theorem mainLoop_last (client : Client) (flags : CmdFlags) (last : Option (GoString × Time))
    (hlast : ∀ p ∈ last, p.1 ≠ [] ∧ 10 ∉ p.1 ∧ p.1.length < defaultBufSize ∧
      timeParse (str "02/01/2006") layoutDMY (TrimSpace p.1) = Except.ok p.2)
    (hapi : ∀ p ∈ last, ∃ rates,
      GetDailyRates client p.2 flags.Currency flags.BaseCurrency = Outcome.ok rates ∧
        ∀ i ∈ rates.Rates, i.ReferenceDate.Time = p.2)
    (fuel : Nat) (so se : GoString) (tr : List Event) (hf : (stdinOf [] last).length < fuel) :
    mainLoop client flags fuel ⟨stdinOf [] last, so, se, tr⟩ =
      (⟨[], so, se ++ outputOf client flags [] last, tr ++ traceOf client flags [] last⟩,
        Exit.returned) := by
  cases last with
  | none =>
    obtain ⟨n, rfl⟩ : ∃ n, fuel = n + 1 := ⟨fuel - 1, by omega⟩
    have hs : stdinOf [] none = [] := rfl
    rw [mainLoop_succ, hs]
    simp [mainStep, readDateLine_nil, outputOf, traceOf]
  | some p =>
    obtain ⟨line, t⟩ := p
    obtain ⟨hne, h10, hlen, ht⟩ := hlast (line, t) rfl
    have hs : stdinOf [] (some (line, t)) = line := by simp [stdinOf]
    have hl : 1 ≤ line.length := by
      cases line with
      | nil => exact absurd rfl hne
      | cons a l => simp
    rw [hs] at hf ⊢
    obtain ⟨n, rfl⟩ : ∃ n, fuel = n + 2 := ⟨fuel - 2, by omega⟩
    have hstep := mainStep_pass client flags ⟨line, so, se, tr⟩ t []
      (readDateLine_last line t h10 hne hlen ht) (hapi (line, t) rfl)
    rw [mainLoop_succ, hstep]
    simp only [if_true]
    rw [mainLoop_succ]
    simp [mainStep, readDateLine_nil, outputOf, traceOf]

theorem stdinOf_cons (p : GoString × Time) (lines : List (GoString × Time))
    (last : Option (GoString × Time)) :
    stdinOf (p :: lines) last = p.1 ++ 10 :: stdinOf lines last := by
  simp [stdinOf]

theorem mainLoop_lines (client : Client) (flags : CmdFlags) (lines : List (GoString × Time))
    (last : Option (GoString × Time))
    (hlines : ∀ p ∈ lines, 10 ∉ p.1 ∧ p.1.length < defaultBufSize ∧
      timeParse (str "02/01/2006") layoutDMY (TrimSpace p.1) = Except.ok p.2)
    (hlast : ∀ p ∈ last, p.1 ≠ [] ∧ 10 ∉ p.1 ∧ p.1.length < defaultBufSize ∧
      timeParse (str "02/01/2006") layoutDMY (TrimSpace p.1) = Except.ok p.2)
    (hapi : ∀ p ∈ lines ++ last.toList, ∃ rates,
      GetDailyRates client p.2 flags.Currency flags.BaseCurrency = Outcome.ok rates ∧
        ∀ i ∈ rates.Rates, i.ReferenceDate.Time = p.2)
    (fuel : Nat) (so se : GoString) (tr : List Event) (hf : (stdinOf lines last).length < fuel) :
    mainLoop client flags fuel ⟨stdinOf lines last, so, se, tr⟩ =
      (⟨[], so, se ++ outputOf client flags lines last, tr ++ traceOf client flags lines last⟩,
        Exit.returned) := by
  induction lines generalizing fuel se tr with
  | nil =>
    exact mainLoop_last client flags last hlast
      (fun p hp => hapi p (by simp [Option.mem_def] at hp; simp [hp])) fuel so se tr hf
  | cons p lines ih =>
    obtain ⟨h10, hlen, ht⟩ := hlines p (List.mem_cons_self _ _)
    rw [stdinOf_cons] at hf ⊢
    obtain ⟨n, rfl⟩ : ∃ n, fuel = n + 1 := ⟨fuel - 1, by omega⟩
    have hstep := mainStep_pass client flags ⟨p.1 ++ 10 :: stdinOf lines last, so, se, tr⟩ p.2
      (stdinOf lines last) (readDateLine_line p.1 _ p.2 h10 hlen ht)
      (hapi p (by simp))
    have htake : (p.1 ++ 10 :: stdinOf lines last).take
        ((p.1 ++ 10 :: stdinOf lines last).length - (stdinOf lines last).length) = p.1 ++ [10] := by
      have e : p.1 ++ 10 :: stdinOf lines last = (p.1 ++ [10]) ++ stdinOf lines last := by simp
      rw [e, List.length_append, Nat.add_sub_cancel, List.take_left]
    simp only [htake] at hstep
    rw [mainLoop_succ, hstep]
    simp only [if_true]
    rw [ih (fun q hq => hlines q (List.mem_cons_of_mem _ hq))
      (fun q hq => hapi q (by
        rcases List.mem_append.1 hq with hq | hq
        · exact List.mem_append_left _ (List.mem_cons_of_mem _ hq)
        · exact List.mem_append_right _ hq)) n _ _
      (by simp only [List.length_append, List.length_cons] at hf; omega)]
    simp [outputOf, traceOf]


theorem findIdx_append_not_mem (pre rest : GoString) (h : 10 ∉ pre) :
    (pre ++ rest).findIdx (fun c => c == 10) = pre.length + rest.findIdx (fun c => c == 10) := by
  induction pre with
  | nil => simp
  | cons a l ih =>
    have ha : a ≠ 10 := fun e => h (by simp [e])
    have hl : 10 ∉ l := fun e => h (List.mem_cons_of_mem _ e)
    have hb : (a == 10) = false := by simp [ha]
    simp [List.findIdx_cons, hb, ih hl]
    omega

/-- The result of `ReadLine` on a line that does not fit the buffer: the first bytes of the line,
as many as the buffer holds, are returned as if they were a line. -/
theorem ReadLine_full_buffer (pre rest : GoString) (h : 10 ∉ pre) (hlen : pre.length = defaultBufSize)
    (hlast : pre.getLast? ≠ some 13) : ReadLine (pre ++ rest) = (pre, true, none, rest) := by
  have hi := findIdx_append_not_mem pre rest h
  have h1 : 1 ≤ pre.length := by rw [hlen]; decide
  have hg : ¬ ((pre ++ rest).getD (defaultBufSize - 1) 0 = 13) := by
    rw [← hlen]
    exact fun hx => hlast ((getD_last pre rest h1).1 hx)
  have c1 : ¬ ((pre ++ rest).findIdx (fun c => c == 10) < (pre ++ rest).length ∧
      (pre ++ rest).findIdx (fun c => c == 10) < defaultBufSize) := by
    rw [hi]
    omega
  have c2 : (pre ++ rest).length ≥ defaultBufSize := by
    rw [List.length_append]
    omega
  simp only [ReadLine]
  rw [if_neg c1, if_pos c2, if_neg hg, ← hlen, List.take_left, List.drop_left]

theorem dropWhile_blanks (n : Nat) (s : GoString) :
    (List.replicate n 32 ++ s).dropWhile asciiSpace = s.dropWhile asciiSpace := by
  induction n with
  | zero => rfl
  | succ n ih =>
    have : asciiSpace 32 = true := by decide
    rw [List.replicate_succ, List.cons_append, List.dropWhile_cons, this, if_pos rfl, ih]

theorem TrimSpace_blanks (n : Nat) (s : GoString) :
    TrimSpace (List.replicate n 32 ++ s) = TrimSpace s := by
  simp only [TrimSpace, dropWhile_blanks]

theorem getLast?_replicate_succ (n a : Nat) : (List.replicate (n + 1) a).getLast? = some a := by
  induction n with
  | zero => rfl
  | succ n ih =>
    rw [List.replicate_succ, List.replicate_succ, List.getLast?_cons_cons, ← List.replicate_succ, ih]

theorem blanks_fill_buffer :
    (List.replicate 4096 32 : GoString).length = defaultBufSize ∧
      (List.replicate 4096 32 : GoString).getLast? ≠ some 13 ∧
      10 ∉ (List.replicate 4096 32 : GoString) := by
  refine ⟨?_, ?_, ?_⟩
  · rw [List.length_replicate]
    rfl
  · rw [getLast?_replicate_succ 4095 32]
    decide
  · intro hm
    exact absurd (List.eq_of_mem_replicate hm) (by decide)

set_option maxRecDepth 100000 in
/-- Claim C10 as stated fails: a line of 4096 blanks and a date is a valid date
once trimmed, the service answers with an entry of that date, and `main` panics
with a parse error, because `ReadLine` returns the 4096 blanks as a line. -/
theorem long_line_panics :
    timeParse (str "02/01/2006") layoutDMY (TrimSpace (List.replicate 4096 32 ++ str "15/01/2024")) =
        Except.ok ⟨2024, 1, 15, 0, 0, 0, 0⟩ ∧
      GetDailyRates echoClient ⟨2024, 1, 15, 0, 0, 0, 0⟩ (str "EUR") [] = Outcome.ok ⟨[eurRate]⟩ ∧
      (main echoClient ⟨[], str "EUR"⟩ (List.replicate 4096 32 ++ str "15/01/2024\n")).2 =
        Exit.panicked (Error.ParseError (str "02/01/2006") []) := by
  refine ⟨?_, by decide, ?_⟩
  · rw [TrimSpace_blanks]
    decide
  · have hrl : ReadLine (List.replicate 4096 32 ++ str "15/01/2024\n") =
        (List.replicate 4096 32, true, none, str "15/01/2024\n") := by
      exact ReadLine_full_buffer _ _ blanks_fill_buffer.2.2 blanks_fill_buffer.1 blanks_fill_buffer.2.1
    have ht : TrimSpace (List.replicate 4096 32) = [] := by
      have := TrimSpace_blanks 4096 []
      rw [List.append_nil] at this
      rw [this]
      decide
    have hp : timeParse (str "02/01/2006") layoutDMY [] =
        Except.error (Error.ParseError (str "02/01/2006") []) := by decide
    have hr : readDateLine (List.replicate 4096 32 ++ str "15/01/2024\n") =
        (Except.error (Error.ParseError (str "02/01/2006") []), str "15/01/2024\n") := by
      simp only [readDateLine, hrl, ht, hp]
    have hs : ∀ w : World, w.stdin = List.replicate 4096 32 ++ str "15/01/2024\n" →
        (mainStep echoClient ⟨[], str "EUR"⟩ w).2 =
          Exit.panicked (Error.ParseError (str "02/01/2006") []) := by
      intro w hw
      simp only [mainStep, hw, hr]
    rw [main, mainLoop_succ, hs _ rfl]
    simp only [reduceCtorEq, if_false]
    exact hs _ rfl

/-- Claim C10, amended: for a standard input made of n lines, each shorter
than the 4096 bytes of the buffer of the reader and a valid date once the white
space around it is trimmed, the last one with or without a newline after it, and a
service that answers every query with entries of the requested date, `main` makes
exactly n fetches, one for each line in the order of the lines, prints the lines of
a date before it reads the next line, and returns at the end of the input with no
error.  For every input `main` ends, and a pass of the loop returns without a
panic exactly when it finds the input at its end. -/
theorem main_one_pass_per_line (client : Client) (flags : CmdFlags) :
    (∀ (lines : List (GoString × Time)) (last : Option (GoString × Time)),
        (∀ p ∈ lines, 10 ∉ p.1 ∧ p.1.length < defaultBufSize ∧
          timeParse (str "02/01/2006") layoutDMY (TrimSpace p.1) = Except.ok p.2) →
        (∀ p ∈ last, p.1 ≠ [] ∧ 10 ∉ p.1 ∧ p.1.length < defaultBufSize ∧
          timeParse (str "02/01/2006") layoutDMY (TrimSpace p.1) = Except.ok p.2) →
        (∀ p ∈ lines ++ last.toList, ∃ rates,
          GetDailyRates client p.2 flags.Currency flags.BaseCurrency = Outcome.ok rates ∧
            ∀ i ∈ rates.Rates, i.ReferenceDate.Time = p.2) →
        main client flags (stdinOf lines last) =
            (⟨[], [], outputOf client flags lines last, traceOf client flags lines last⟩,
              Exit.returned) ∧
          fetches (traceOf client flags lines last) =
            (lines ++ last.toList).map (fun p => newRequest p.2 flags.Currency flags.BaseCurrency) ∧
          (fetches (traceOf client flags lines last)).length = lines.length + last.toList.length) ∧
      (∀ stdin, (main client flags stdin).2 ≠ Exit.running) ∧
      (∀ w, (mainStep client flags w).2 = Exit.returned ↔ w.stdin = []) := by
  refine ⟨?_, ?_, mainStep_returned_iff client flags⟩
  · intro lines last hlines hlast hapi
    refine ⟨?_, fetches_traceOf client flags lines last, ?_⟩
    · have := mainLoop_lines client flags lines last hlines hlast hapi
        ((stdinOf lines last).length + 1) [] [] [] (by omega)
      simpa [main] using this
    · rw [fetches_traceOf]
      simp
  · intro stdin
    exact mainLoop_not_running client flags _ _ (by simp)

set_option maxRecDepth 100000 in
theorem main_one_pass_per_line_witness :
    main echoClient ⟨[], str "EUR"⟩
        (stdinOf [(str "01/01/2024", ⟨2024, 1, 1, 0, 0, 0, 0⟩)]
          (some (str "02/01/2024", ⟨2024, 1, 2, 0, 0, 0, 0⟩))) =
      (⟨[], [],
        outputOf echoClient ⟨[], str "EUR"⟩ [(str "01/01/2024", ⟨2024, 1, 1, 0, 0, 0, 0⟩)]
          (some (str "02/01/2024", ⟨2024, 1, 2, 0, 0, 0, 0⟩)),
        traceOf echoClient ⟨[], str "EUR"⟩ [(str "01/01/2024", ⟨2024, 1, 1, 0, 0, 0, 0⟩)]
          (some (str "02/01/2024", ⟨2024, 1, 2, 0, 0, 0, 0⟩))⟩, Exit.returned) ∧
      stdinOf [(str "01/01/2024", ⟨2024, 1, 1, 0, 0, 0, 0⟩)]
          (some (str "02/01/2024", ⟨2024, 1, 2, 0, 0, 0, 0⟩)) = str "01/01/2024\n02/01/2024" ∧
      outputOf echoClient ⟨[], str "EUR"⟩ [(str "01/01/2024", ⟨2024, 1, 1, 0, 0, 0, 0⟩)]
          (some (str "02/01/2024", ⟨2024, 1, 2, 0, 0, 0, 0⟩)) = str "0.92\n0.92\n" :=
  ⟨((main_one_pass_per_line echoClient ⟨[], str "EUR"⟩).1
      [(str "01/01/2024", ⟨2024, 1, 1, 0, 0, 0, 0⟩)] (some (str "02/01/2024", ⟨2024, 1, 2, 0, 0, 0, 0⟩))
      (by decide)
      (by
        intro p hp
        simp only [Option.mem_def, Option.some.injEq] at hp
        subst hp
        decide)
      (by
        intro p hp
        simp only [Option.toList, List.mem_append, List.mem_singleton] at hp
        rcases hp with rfl | rfl
        · exact ⟨⟨[⟨str "EUR", str "0.92", ⟨⟨2024, 1, 1, 0, 0, 0, 0⟩, str "2024-01-01"⟩⟩]⟩,
            by decide, by decide⟩
        · exact ⟨⟨[⟨str "EUR", str "0.92", ⟨⟨2024, 1, 2, 0, 0, 0, 0⟩, str "2024-01-02"⟩⟩]⟩,
            by decide, by decide⟩)).1,
    by decide, by decide⟩


end ExchangeRates
